import Mathlib

/-!
Verification of the table-harvesting pipeline (scripts/harvest.py).

The Python source is shallowly embedded: strings are Lean strings, the
regular-expression substitutions of `clean` and `slugify` are modelled as
single-pass character machines with the same leftmost, non-overlapping
semantics, the streaming HTML table parser is a state machine over a token
stream, and the row classifier `row_to_entry` returns a three-valued result
distinguishing acceptance, rejection, and a would-be runtime exception.
-/

namespace Harvest

/-! ## Basic character and string utilities -/

/-- Whitespace characters recognised by the Python `str.strip` and the
regex class backslash-s, restricted to ASCII. -/
def isPyWs (c : Char) : Bool :=
  c == ' ' || c == '\t' || c == '\n' || c == '\r' || c == '\x0b' || c == '\x0c'

/-- Model of Python `str.strip()` on a character list. -/
def pyStripL (l : List Char) : List Char :=
  ((l.dropWhile isPyWs).reverse.dropWhile isPyWs).reverse

/-- Model of Python `str.strip()`. -/
def pyStrip (s : String) : String := ⟨pyStripL s.toList⟩

/-- Model of Python `str.lower()` (ASCII). -/
def pyLower (s : String) : String := ⟨s.toList.map Char.toLower⟩

/-- Model of the Python slice `s[:n]` (by code point). -/
def takeS (n : Nat) (s : String) : String := ⟨s.toList.take n⟩

/-- Decimal digit character, as produced by Python `str(int)`. -/
def digCh (n : Nat) : Char :=
  match n with
  | 0 => '0' | 1 => '1' | 2 => '2' | 3 => '3' | 4 => '4'
  | 5 => '5' | 6 => '6' | 7 => '7' | 8 => '8' | 9 => '9'
  | _ => '*'

/-- Fuel-driven decimal rendering of a natural number, most significant
digit first.  With fuel above the number this agrees with Python `str`. -/
def natStrAux : Nat → Nat → List Char
  | 0, _ => []
  | fuel + 1, n => if n < 10 then [digCh n] else natStrAux fuel (n / 10) ++ [digCh (n % 10)]

/-- Model of Python `str` on a nonnegative integer. -/
def natStr (n : Nat) : String := ⟨natStrAux (n + 1) n⟩

/-- Decimal value of a digit list (used to invert `natStr`). -/
def decVal (l : List Char) : Nat := l.foldl (fun a c => 10 * a + (c.toNat - 48)) 0

/-- ASCII decimal digit test (the regex class backslash-d, ASCII). -/
def isDig (c : Char) : Bool := decide (48 ≤ c.toNat ∧ c.toNat ≤ 57)

/-- Model of the Python substring test `pat in hay`. -/
def containsSub (hay pat : String) : Bool := decide (pat.toList <:+: hay.toList)

/-! ## The text cleaner `clean`
Each regex substitution is a left-to-right machine over the characters;
the state holds the partially matched marker so far. -/

/-- Machine for the substitution removing bracketed integers such as `[1]`.
The state holds the digits seen since an opening bracket (reversed). -/
def subNumAux : Option (List Char) → List Char → List Char
  | none, [] => []
  | none, c :: rest => if c = '[' then subNumAux (some []) rest else c :: subNumAux none rest
  | some ds, [] => '[' :: ds.reverse
  | some ds, c :: rest =>
    if isDig c then subNumAux (some (c :: ds)) rest
    else if c = ']' ∧ ds ≠ [] then subNumAux none rest
    else if c = '[' then ('[' :: ds.reverse) ++ subNumAux (some []) rest
    else ('[' :: ds.reverse) ++ c :: subNumAux none rest

/-- The literal text between the bracket and the digits of a note marker. -/
def notePat : List Char := ['n', 'o', 't', 'e', ' ']

/-- Machine for the substitution removing markers such as `[note 2]`.
The state holds how much of `notePat` was consumed and the digits seen. -/
def subNoteAux : Option (Nat × List Char) → List Char → List Char
  | none, [] => []
  | none, c :: rest => if c = '[' then subNoteAux (some (0, [])) rest else c :: subNoteAux none rest
  | some (k, ds), [] => '[' :: (notePat.take k ++ ds.reverse)
  | some (k, ds), c :: rest =>
    if k < 5 then
      if c = notePat.getD k '*' then subNoteAux (some (k + 1, ds)) rest
      else if c = '[' then ('[' :: notePat.take k) ++ subNoteAux (some (0, [])) rest
      else ('[' :: notePat.take k) ++ c :: subNoteAux none rest
    else
      if isDig c then subNoteAux (some (k, c :: ds)) rest
      else if c = ']' ∧ ds ≠ [] then subNoteAux none rest
      else if c = '[' then ('[' :: (notePat ++ ds.reverse)) ++ subNoteAux (some (0, [])) rest
      else ('[' :: (notePat ++ ds.reverse)) ++ c :: subNoteAux none rest

/-- Machine for the substitution removing the literal marker `[a]`.
The state counts how much of the marker was consumed after the bracket. -/
def subAAux : Option Nat → List Char → List Char
  | none, [] => []
  | none, c :: rest => if c = '[' then subAAux (some 0) rest else c :: subAAux none rest
  | some k, [] => '[' :: (if k = 1 then ['a'] else [])
  | some k, c :: rest =>
    if k = 0 then
      if c = 'a' then subAAux (some 1) rest
      else if c = '[' then '[' :: subAAux (some 0) rest
      else '[' :: c :: subAAux none rest
    else
      if c = ']' then subAAux none rest
      else if c = '[' then ('[' :: ['a']) ++ subAAux (some 0) rest
      else ('[' :: ['a']) ++ c :: subAAux none rest

/-- Machine collapsing every whitespace run to one space; the flag records
whether the previous character was part of a whitespace run. -/
def collapseWsAux : Bool → List Char → List Char
  | _, [] => []
  | inWs, c :: rest =>
    if isPyWs c then
      if inWs then collapseWsAux true rest else ' ' :: collapseWsAux true rest
    else c :: collapseWsAux false rest

/-- Model of `clean`: strip `[1]`-style, `[note 2]`-style and `[a]`
markers, collapse whitespace runs to one space, trim the ends. -/
def clean (s : String) : String :=
  ⟨pyStripL (collapseWsAux false (subAAux none (subNoteAux none (subNumAux none s.toList))))⟩

/-! ## The identifier generator `slugify` and the collision loop -/

/-- Characters kept by the slug substitution: lowercase ASCII letters and
digits. -/
def isSlug (c : Char) : Bool :=
  decide ((97 ≤ c.toNat ∧ c.toNat ≤ 122) ∨ (48 ≤ c.toNat ∧ c.toNat ≤ 57))

/-- Characters replaced by the slug substitution. -/
def nonSlug (c : Char) : Bool := !(isSlug c)

/-- Machine replacing every maximal run of non-slug characters by one
hyphen; the flag records whether a run is already open. -/
def slugRepl : Bool → List Char → List Char
  | _, [] => []
  | inRun, c :: rest =>
    if isSlug c then c :: slugRepl false rest
    else if inRun then slugRepl true rest
    else '-' :: slugRepl true rest

/-- Drop leading hyphens. -/
def dropH (l : List Char) : List Char := l.dropWhile (· == '-')

/-- Drop trailing hyphens. -/
def dropHEnd (l : List Char) : List Char := (dropH l.reverse).reverse

/-- Model of Python `str.strip(hyphen)`. -/
def trimHyph (l : List Char) : List Char := dropH (dropHEnd l)

/-- Model of `slugify(text, year)` from the source: lowercase
`str(year) + "-" + text[:40]`, replace runs outside lowercase
alphanumerics by one hyphen, strip hyphens at the ends. -/
def slugify (text : String) (year : Nat) : String :=
  ⟨trimHyph (slugRepl false (pyLower (natStr year ++ "-" ++ takeS 40 text)).toList)⟩

/-- Maximal runs of slug characters, possibly empty, oldest first.  The
head of the result is the run in progress. -/
def runsAux : List Char → List (List Char)
  | [] => [[]]
  | c :: rest =>
    if isSlug c then (c :: (runsAux rest).headD []) :: (runsAux rest).tail
    else [] :: runsAux rest

/-- The nonempty maximal runs of slug characters. -/
def goodRuns (l : List Char) : List (List Char) := (runsAux l).filter (· ≠ [])

/-- Independent formulation of the slug construction: the nonempty maximal
alphanumeric runs of the lowercased `str(year) + "-" + text[:40]`, joined
by single hyphens. -/
def slugSpec (text : String) (year : Nat) : String :=
  ⟨List.intercalate ['-'] (goodRuns (pyLower (natStr year ++ "-" ++ takeS 40 text)).toList)⟩

/-- Modelled from the claim wording taken literally: the year concatenated
directly with the first 40 characters of the text, with no separator
between them, then the same run replacement and trimming. -/
def slugClaim (text : String) (year : Nat) : String :=
  ⟨List.intercalate ['-'] (goodRuns (pyLower (natStr year ++ takeS 40 text)).toList)⟩

/-- The candidate identifiers tried by the collision loop, in order. -/
def cand (base : String) : Nat → String
  | 0 => base
  | k + 1 => base ++ "-" ++ natStr (k + 1)

/-- Fuel-driven model of the collision `while` loop of `row_to_entry`. -/
def ensureUniqueAux (base : String) (known : List String) : Nat → Nat → String
  | 0, k => cand base k
  | fuel + 1, k => if cand base k ∈ known then ensureUniqueAux base known fuel (k + 1) else cand base k

/-- The collision loop: starting from the base identifier, append `-1`,
`-2`, and so on until the identifier is not a known one.  The fuel
`known.length + 1` is enough, as proved below. -/
def ensureUnique (base : String) (known : List String) : String :=
  ensureUniqueAux base known (known.length + 1) 0

/-! ## The category guesser -/

/-- The eight category values, in the enumeration order of the source. -/
def VALID_CATEGORIES : List String :=
  ["Economic Collapse", "Tech Apocalypse", "Environmental Doom",
   "Political Catastrophe", "Health Crisis", "Social Breakdown",
   "Food & Resource Scarcity", "War & Conflict"]

/-- The keyword table of the source, in its insertion order. -/
def CATEGORY_KEYWORDS : List (String × List String) :=
  [("Economic Collapse", ["economy", "financial", "stock", "crash", "bank", "depression", "debt", "dollar", "inflation", "recession"]),
   ("Tech Apocalypse", ["computer", "internet", "ai", "robot", "nuclear plant", "technology", "software", "cyber", "y2k"]),
   ("Environmental Doom", ["climate", "ozone", "pollution", "asteroid", "comet", "flood", "ice age", "warming", "cooling", "sea level", "extinction", "biodiversity"]),
   ("Political Catastrophe", ["war", "election", "government", "fascism", "communism", "dictatorship", "coup", "democracy"]),
   ("Health Crisis", ["pandemic", "plague", "virus", "disease", "epidemic", "flu", "cancer", "aids", "ebola", "bacteria"]),
   ("Social Breakdown", ["crime", "drugs", "violence", "moral", "youth", "media", "society", "culture"]),
   ("Food & Resource Scarcity", ["food", "famine", "hunger", "water", "oil", "energy", "resource", "population", "starvation"]),
   ("War & Conflict", ["nuclear war", "world war", "armageddon", "invasion", "missile", "bomb", "military"])]

/-- The keywords attached to a category. -/
def kwListOf (cat : String) : List String := (CATEGORY_KEYWORDS.lookup cat).getD []

/-- Number of keywords of the category occurring in the lowercased text. -/
def catScore (text cat : String) : Nat :=
  ((kwListOf cat).filter (fun kw => containsSub (pyLower text) kw)).length

/-- Model of Python `max(xs, key=sc)` on a nonempty collection: the first
element attaining the maximal score.  The first argument is the best so
far. -/
def pickBest (sc : String → Nat) : String → List String → String
  | best, [] => best
  | best, c :: cs => pickBest sc (if sc best < sc c then c else best) cs

/-- The winner of `max(scores, key=scores.get)`: the first category of the
enumeration attaining the maximal score. -/
def bestCat (text : String) : String :=
  pickBest (catScore text) (VALID_CATEGORIES.headD "") VALID_CATEGORIES.tail

/-- Model of `guess_category`: the first category of the enumeration with
the maximal keyword score, or the default when every score is zero. -/
def guess_category (text : String) : String :=
  if 0 < catScore text (bestCat text) then bestCat text else "Political Catastrophe"

/-! ## Year extraction -/

/-- Word characters of the regex word-boundary assertion (ASCII). -/
def isWordC (c : Char) : Bool := c.isAlphanum || c == '_'

/-- A word boundary holds next to this optional character. -/
def bOk : Option Char → Bool
  | none => true
  | some c => !(isWordC c)

/-- The four-digit year pattern of the source regex: `1` then three
digits, or `20` then a digit up to 2 then a digit. -/
def yearPat (a b c d : Char) : Bool :=
  (a == '1' && isDig b && isDig c && isDig d) ||
  (a == '2' && b == '0' && decide (48 ≤ c.toNat ∧ c.toNat ≤ 50) && isDig d)

/-- Model of `re.search` for the year pattern with word boundaries: the
scan tries every position from the left, remembering the previous
character for the boundary test. -/
def findYear : Option Char → List Char → Option (List Char)
  | _, [] => none
  | prev, a :: b :: c :: d :: rest =>
    if yearPat a b c d && bOk prev && bOk rest.head? then some [a, b, c, d]
    else findYear (some a) (b :: c :: d :: rest)
  | _, a :: rest => findYear (some a) rest

/-- Model of Python `int` on the matched group: defined exactly on
nonempty all-digit strings. -/
def digitsToNat? (l : List Char) : Option Nat :=
  if l ≠ [] ∧ l.all isDig then some (decVal l) else none

/-! ## The row classifier -/

/-- The output record of the classifier (one `doom.json` entry). -/
structure Entry where
  id : String
  year : Nat
  prediction : String
  source : String
  reality : String
  category : String
  tags : List String
  harvested : Bool
deriving DecidableEq

/-- Result of classifying one row: an accepted record, a rejection, or a
would-be Python exception (never produced, as proved below). -/
inductive RResult where
  | crash : RResult
  | reject : RResult
  | accept : Entry → RResult
deriving DecidableEq

/-- Header-indicating words of the source. -/
def HEADER_WORDS : List String := ["date", "year", "century", "event", "prediction"]

/-- The low-information outcome tokens of the source. -/
def LOW_INFO : List String := ["no", "yes", "none", "n/a", "—", "-"]

/-- The synthesized reality sentence of the source, naming the fallback
year. -/
def fallbackReality (year : Nat) : String :=
  "The predicted event did not occur as described by " ++
    natStr (if year < 2020 then year + 5 else 2025) ++ "."

/-- Final part of `row_to_entry` after shape detection (source lines
185 to 217): length check on the prediction, identifier generation with
the collision loop, category guess, reality rule, record construction. -/
def mkEntry (claimant predText outcome : String) (year : Nat) (hint : String)
    (existing : List String) : RResult :=
  if predText = "" ∨ predText.length < 15 then .reject
  else
    .accept {
      id := ensureUnique (slugify (claimant ++ "-" ++ takeS 20 predText) year) existing
      year := year
      prediction := predText
      source := if claimant ≠ "" ∧ claimant ≠ predText then claimant else "Unknown"
      reality :=
        if outcome ≠ "" ∧ 20 < outcome.length ∧ pyLower outcome ∉ LOW_INFO then outcome
        else fallbackReality year
      category := guess_category (predText ++ " " ++ outcome ++ " " ++ hint)
      tags := []
      harvested := true }

/-- Model of `row_to_entry`.  Cell accesses are modelled by `List.get?`
and a failed access yields `.crash`, so that the absence of runtime
exceptions is a provable statement rather than a modelling assumption. -/
def row_to_entry (row : List String) (hint : String) (existing : List String) : RResult :=
  if row.length < 3 then .reject
  else
    match (row.map clean).get? 0 with
    | none => .crash
    | some c0 =>
      if HEADER_WORDS.any (fun h => containsSub (pyLower c0) h) then .reject
      else if (row.map clean).length < 3 ∨ c0 = "" then .reject
      else
        match findYear none c0.toList with
        | none => .reject
        | some tok =>
          match digitsToNat? tok with
          | none => .crash
          | some year =>
            if 2026 ≤ year then .reject
            else if 4 ≤ (row.map clean).length then
              match (row.map clean).get? 1, (row.map clean).get? 2 with
              | some claimant, some predText =>
                mkEntry claimant predText
                  (if 3 < (row.map clean).length then (row.map clean).getD 3 "" else "")
                  year hint existing
              | _, _ => .crash
            else
              match (row.map clean).get? 1 with
              | some claimant =>
                mkEntry claimant claimant
                  (if 2 < (row.map clean).length then (row.map clean).getD 2 "" else "")
                  year hint existing
              | none => .crash

/-- One iteration of the per-row accumulation loop of `main`: an accepted
record is appended and its identifier immediately added to the known set,
so later rows see it; otherwise the state is unchanged. -/
def runStep (acc : List Entry × List String) (t : List String × String) :
    List Entry × List String :=
  match row_to_entry t.1 t.2 acc.2 with
  | .accept e => (acc.1 ++ [e], acc.2 ++ [e.id])
  | _ => acc

/-- The per-row accumulation loop of `main` over a whole run, starting
from the identifiers of the pre-existing store. -/
def runRows (targets : List (List String × String)) (known : List String) :
    List Entry × List String :=
  targets.foldl runStep ([], known)

/-- The outcome cell selected by the shape detection, used to state the
reality rule. -/
def outcomeOf (row : List String) : String :=
  if 4 ≤ (row.map clean).length then (row.map clean).getD 3 "" else (row.map clean).getD 2 ""

/-! ## The streaming table parser -/

/-- Markup tokens: the tokenization itself is done by the Python standard
library; the parser of the source only sees these three events. -/
inductive Tok where
  | start : String → Tok
  | close : String → Tok
  | data : String → Tok
deriving DecidableEq

/-- Parser state, mirroring the fields of `TableParser`. -/
structure PState where
  tables : List (List (List String))
  curTable : Option (List (List String))
  curRow : Option (List String)
  curCell : Option (List String)
  depth : Int
deriving DecidableEq

/-- The initial parser state. -/
def initState : PState := ⟨[], none, none, none, 0⟩

/-- Model of Python `sep.join(xs)`. -/
def strJoin (sep : String) : List String → String
  | [] => ""
  | [x] => x
  | x :: xs => x ++ sep ++ strJoin sep xs

/-- Joining the accumulated fragments of a cell, as the source does on a
closing cell tag. -/
def cellText (frags : List String) : String := pyStrip (strJoin " " frags)

/-- Model of `handle_starttag`. -/
def handleStart (st : PState) (tag : String) : PState :=
  if tag = "table" then
    if st.depth + 1 = 1 then { st with depth := st.depth + 1, curTable := some [] }
    else { st with depth := st.depth + 1 }
  else if tag = "tr" then
    if st.depth = 1 then { st with curRow := some [] } else st
  else if tag = "td" ∨ tag = "th" then
    if st.depth = 1 ∧ st.curRow ≠ none then { st with curCell := some [] } else st
  else st

/-- Model of `handle_endtag`. -/
def handleEnd (st : PState) (tag : String) : PState :=
  if tag = "table" then
    match st.curTable with
    | some t =>
      if st.depth = 1 then
        { st with tables := st.tables ++ [t], curTable := none, depth := st.depth - 1 }
      else { st with depth := st.depth - 1 }
    | none => { st with depth := st.depth - 1 }
  else if tag = "tr" then
    if st.depth = 1 then
      match st.curRow, st.curTable with
      | some r, some t =>
        if r ≠ [] then { st with curTable := some (t ++ [r]), curRow := none }
        else { st with curRow := none }
      | _, _ => { st with curRow := none }
    else st
  else if tag = "td" ∨ tag = "th" then
    if st.depth = 1 then
      match st.curCell, st.curRow with
      | some cel, some r => { st with curRow := some (r ++ [cellText cel]), curCell := none }
      | _, _ => { st with curCell := none }
    else st
  else st

/-- Model of `handle_data`. -/
def handleData (st : PState) (s : String) : PState :=
  match st.curCell with
  | none => st
  | some cel =>
    if pyStrip s ≠ "" then { st with curCell := some (cel ++ [pyStrip s]) } else st

/-- One parser step. -/
def stepTok (st : PState) (t : Tok) : PState :=
  match t with
  | .start tg => handleStart st tg
  | .close tg => handleEnd st tg
  | .data s => handleData st s

/-- Feeding a token stream. -/
def feed (st : PState) (ts : List Tok) : PState := ts.foldl stepTok st

/-- Model of `extract_tables`. -/
def extract_tables (ts : List Tok) : List (List (List String)) :=
  (feed initState ts).tables

/-! ## Markup generators used to state the nesting properties -/

/-- Tokens of one cell holding one text chunk. -/
def cellToks (c : String) : List Tok := [.start "td", .data c, .close "td"]

/-- Tokens of one row. -/
def rowToks (r : List String) : List Tok :=
  [.start "tr"] ++ r.flatMap cellToks ++ [.close "tr"]

/-- Tokens of one well-formed table. -/
def tableToks (t : List (List String)) : List Tok :=
  [.start "table"] ++ t.flatMap rowToks ++ [.close "table"]

/-- Markup of an outer table with a second table nested inside one of its
cells: rows `pre`, then a row whose cells are `cpre`, one cell holding the
chunk `c` followed by the whole nested table `inner`, and `cpost`, then
rows `post`. -/
def nestedToks (pre : List (List String)) (cpre : List String) (c : String)
    (inner : List (List String)) (cpost : List String)
    (post : List (List String)) : List Tok :=
  [.start "table"] ++ pre.flatMap rowToks ++
    ([.start "tr"] ++ cpre.flatMap cellToks ++
      ([.start "td", .data c] ++ tableToks inner ++ [.close "td"]) ++
      cpost.flatMap cellToks ++ [.close "tr"]) ++
    post.flatMap rowToks ++ [.close "table"]

/-- How the parser renders a list of simple rows: each cell is stripped,
and rows without cells are dropped. -/
def procRows (rs : List (List String)) : List (List String) :=
  (rs.filter (· ≠ [])).map (List.map pyStrip)

/-- The data fragments contributed by a nested table to the enclosing open
cell: every cell chunk in row order, stripped, empty ones dropped. -/
def innerData (rs : List (List String)) : List String :=
  (rs.flatten.map pyStrip).filter (· ≠ "")

/-- The text of the cell that encloses the nested table. -/
def nestedCellText (c : String) (inner : List (List String)) : String :=
  cellText ((if pyStrip c ≠ "" then [pyStrip c] else []) ++ innerData inner)

/-! ## Concrete sample inputs used by the scenario claims -/

/-- The scenario row of the specification. -/
def sampleRow : List String :=
  ["1999", "Ravi Batra", "The US economy will collapse by 2000 due to debt", "It did not happen"]

/-- The record the classifier actually produces from `sampleRow` with an
empty hint and no known identifiers. -/
def sampleEntry : Entry :=
  { id := "1999-ravi-batra-the-us-economy-will", year := 1999,
    prediction := "The US economy will collapse by 2000 due to debt",
    source := "Ravi Batra",
    reality := "The predicted event did not occur as described by 2004.",
    category := "Economic Collapse", tags := [], harvested := true }

/-- A one-row run, used to instantiate the run-level statements. -/
def sampleTargets : List (List String × String) := [(sampleRow, "")]

/-! ## Lemmas about decimal rendering and the candidate identifiers -/

theorem digCh_toNat {d : Nat} (h : d < 10) : (digCh d).toNat = 48 + d := by
  interval_cases d <;> rfl

theorem isDig_digCh {d : Nat} (h : d < 10) : isDig (digCh d) = true := by
  interval_cases d <;> rfl

theorem natStrAux_ne_nil {fuel n : Nat} (h : n < fuel) : natStrAux fuel n ≠ [] := by
  cases fuel with
  | zero => omega
  | succ fuel =>
    by_cases h10 : n < 10 <;> simp [natStrAux, h10]

theorem natStrAux_digits {fuel n : Nat} (h : n < fuel) :
    ∀ c ∈ natStrAux fuel n, isDig c := by
  induction fuel generalizing n with
  | zero => omega
  | succ fuel ih =>
    by_cases h10 : n < 10
    · simp only [natStrAux, if_pos h10, List.mem_singleton]
      rintro c rfl
      exact isDig_digCh h10
    · simp only [natStrAux, if_neg h10, List.mem_append, List.mem_singleton]
      rintro c (hc | rfl)
      · exact ih (by omega : n / 10 < fuel) c hc
      · exact isDig_digCh (Nat.mod_lt _ (by omega))

theorem decVal_append_digit (l : List Char) (c : Char) :
    decVal (l ++ [c]) = 10 * decVal l + (c.toNat - 48) := by
  simp [decVal, List.foldl_append]

theorem decVal_natStrAux {fuel n : Nat} (h : n < fuel) :
    decVal (natStrAux fuel n) = n := by
  induction fuel generalizing n with
  | zero => omega
  | succ fuel ih =>
    by_cases h10 : n < 10
    · simp only [natStrAux, if_pos h10]
      simp [decVal, digCh_toNat h10]
    · simp only [natStrAux, if_neg h10]
      rw [decVal_append_digit, ih (by omega : n / 10 < fuel),
        digCh_toNat (Nat.mod_lt _ (by omega))]
      omega

theorem natStr_toList (n : Nat) : (natStr n).toList = natStrAux (n + 1) n := rfl

theorem decVal_natStr (n : Nat) : decVal (natStr n).toList = n :=
  decVal_natStrAux (Nat.lt_succ_self n)

theorem natStr_inj : Function.Injective natStr := by
  intro a b h
  have : decVal (natStr a).toList = decVal (natStr b).toList := by rw [h]
  rwa [decVal_natStr, decVal_natStr] at this

theorem natStr_ne_nil (n : Nat) : (natStr n).toList ≠ [] :=
  natStrAux_ne_nil (Nat.lt_succ_self n)

theorem natStr_all_digits (n : Nat) : ∀ c ∈ (natStr n).toList, isDig c :=
  natStrAux_digits (Nat.lt_succ_self n)

theorem string_length_pos_of_toList_ne_nil {s : String} (h : s.toList ≠ []) :
    0 < s.length := by
  cases s with
  | mk data =>
    cases data with
    | nil => exact absurd rfl h
    | cons c cs => simp [String.length]

theorem cand_inj (base : String) : Function.Injective (cand base) := by
  intro a b h
  match a, b with
  | 0, 0 => rfl
  | 0, k + 1 =>
    exfalso
    have hl := congrArg String.length h
    simp only [cand, String.length_append] at hl
    have := string_length_pos_of_toList_ne_nil (natStr_ne_nil (k + 1))
    omega
  | k + 1, 0 =>
    exfalso
    have hl := congrArg String.length h
    simp only [cand, String.length_append] at hl
    have := string_length_pos_of_toList_ne_nil (natStr_ne_nil (k + 1))
    omega
  | a + 1, b + 1 =>
    have hd := congrArg String.data h
    simp only [cand, String.data_append] at hd
    have hd2 : ("-" ++ natStr (a + 1)).data = ("-" ++ natStr (b + 1)).data := by
      simpa [String.data_append] using List.append_cancel_left hd
    simp only [String.data_append] at hd2
    have : natStr (a + 1) = natStr (b + 1) := by
      apply String.ext
      exact List.append_cancel_left hd2
    have := natStr_inj this
    omega

/-! ## Correctness of the collision loop -/

theorem cand_exists_not_mem (base : String) (known : List String) :
    ∃ j, j ≤ known.length ∧ cand base j ∉ known := by
  by_contra hcon
  push_neg at hcon
  have hsub : (Finset.range (known.length + 1)).image (cand base) ⊆ known.toFinset := by
    intro x hx
    rcases Finset.mem_image.mp hx with ⟨j, hj, rfl⟩
    exact List.mem_toFinset.mpr (hcon j (by simpa using Nat.lt_succ_iff.mp (Finset.mem_range.mp hj)))
  have hcard : known.length + 1 ≤ known.toFinset.card := by
    have h1 : ((Finset.range (known.length + 1)).image (cand base)).card = known.length + 1 := by
      rw [Finset.card_image_of_injective _ (cand_inj base), Finset.card_range]
    calc known.length + 1 = _ := h1.symm
      _ ≤ known.toFinset.card := Finset.card_le_card hsub
  have := known.toFinset_card_le
  omega

theorem ensureUniqueAux_spec (base : String) (known : List String) :
    ∀ fuel k, (∃ j, j < fuel ∧ cand base (k + j) ∉ known) →
      ∃ j, ensureUniqueAux base known fuel k = cand base (k + j) ∧
        cand base (k + j) ∉ known ∧ ∀ i < j, cand base (k + i) ∈ known := by
  intro fuel
  induction fuel with
  | zero => rintro k ⟨j, hj, _⟩; omega
  | succ fuel ih =>
    rintro k ⟨j, hj, hfree⟩
    by_cases hmem : cand base k ∈ known
    · have hj0 : j ≠ 0 := by rintro rfl; simp at hfree; exact hfree hmem
      have ⟨j', hj'eq, hj'free, hj'all⟩ :=
        ih (k + 1) ⟨j - 1, by omega, by
          have : k + 1 + (j - 1) = k + j := by omega
          rwa [this]⟩
      refine ⟨j' + 1, ?_, ?_, ?_⟩
      · simpa [ensureUniqueAux, hmem, Nat.add_assoc, Nat.add_comm 1 j'] using hj'eq
      · have : k + (j' + 1) = k + 1 + j' := by omega
        rwa [this]
      · intro i hi
        match i with
        | 0 => simpa using hmem
        | i + 1 =>
          have : k + (i + 1) = k + 1 + i := by omega
          rw [this]
          exact hj'all i (by omega)
    · exact ⟨0, by simp [ensureUniqueAux, hmem], by simpa using hmem, by omega⟩

theorem ensureUnique_spec (base : String) (known : List String) :
    ∃ j, ensureUnique base known = cand base j ∧ cand base j ∉ known ∧
      ∀ i < j, cand base i ∈ known := by
  have ⟨j0, hj0, hfree⟩ := cand_exists_not_mem base known
  have ⟨j, h1, h2, h3⟩ := ensureUniqueAux_spec base known (known.length + 1) 0
    ⟨j0, by omega, by simpa using hfree⟩
  exact ⟨j, by simpa [ensureUnique] using h1, by simpa using h2, fun i hi => by simpa using h3 i hi⟩

theorem ensureUnique_not_mem (base : String) (known : List String) :
    ensureUnique base known ∉ known := by
  have ⟨j, h1, h2, _⟩ := ensureUnique_spec base known
  rw [h1]; exact h2

/-! ## Facts about the year search -/

theorem findYear_shape : ∀ {l : List Char} {prev : Option Char} {tok : List Char},
    findYear prev l = some tok → ∃ a b c d, tok = [a, b, c, d] ∧ yearPat a b c d = true := by
  intro l
  induction l with
  | nil => intro prev tok h; simp [findYear] at h
  | cons a rest ih =>
    intro prev tok h
    rcases rest with _ | ⟨b, _ | ⟨c, _ | ⟨d, rest'⟩⟩⟩
    · rw [show findYear prev [a] = findYear (some a) [] from rfl] at h
      exact ih h
    · rw [show findYear prev [a, b] = findYear (some a) [b] from rfl] at h
      exact ih h
    · rw [show findYear prev [a, b, c] = findYear (some a) [b, c] from rfl] at h
      exact ih h
    · rw [show findYear prev (a :: b :: c :: d :: rest') =
        (if yearPat a b c d && bOk prev && bOk rest'.head? then some [a, b, c, d]
         else findYear (some a) (b :: c :: d :: rest')) from rfl] at h
      split at h
      · next hcond =>
        simp only [Bool.and_eq_true] at hcond
        injection h with h
        exact ⟨a, b, c, d, h.symm, hcond.1.1⟩
      · exact ih h

theorem yearPat_bounds {a b c d : Char} (h : yearPat a b c d = true) :
    digitsToNat? [a, b, c, d] = some (decVal [a, b, c, d]) ∧
    1000 ≤ decVal [a, b, c, d] ∧ decVal [a, b, c, d] ≤ 2029 := by
  simp only [yearPat, Bool.or_eq_true, Bool.and_eq_true, beq_iff_eq, isDig,
    decide_eq_true_eq] at h
  have hdig : ∀ x : Char, 48 ≤ x.toNat ∧ x.toNat ≤ 57 → isDig x = true := by
    intro x hx
    simp [isDig, hx.1, hx.2]
  rcases h with ⟨⟨⟨ha, hb⟩, hc⟩, hd⟩ | ⟨⟨⟨ha, hb⟩, hc⟩, hd⟩
  · subst ha
    have h1 : ('1' : Char).toNat = 49 := rfl
    have hall : ([('1' : Char), b, c, d].all isDig) = true := by
      simp [isDig]
      omega
    refine ⟨?_, ?_⟩
    · simp [digitsToNat?, hall]
    · simp only [decVal, List.foldl]
      omega
  · subst ha; subst hb
    have h2 : ('2' : Char).toNat = 50 := rfl
    have h0 : ('0' : Char).toNat = 48 := rfl
    have hall : ([('2' : Char), ('0' : Char), c, d].all isDig) = true := by
      simp [isDig]
      omega
    refine ⟨?_, ?_⟩
    · simp [digitsToNat?, hall]
    · simp only [decVal, List.foldl]
      omega

/-! ## Characterizing acceptance by the row classifier -/

theorem mkEntry_accept {claimant predText outcome : String} {year : Nat} {hint : String}
    {existing : List String} {e : Entry}
    (h : mkEntry claimant predText outcome year hint existing = .accept e) :
    ¬(predText = "" ∨ predText.length < 15) ∧
    e = { id := ensureUnique (slugify (claimant ++ "-" ++ takeS 20 predText) year) existing,
          year := year, prediction := predText,
          source := if claimant ≠ "" ∧ claimant ≠ predText then claimant else "Unknown",
          reality := if outcome ≠ "" ∧ 20 < outcome.length ∧ pyLower outcome ∉ LOW_INFO then outcome
                     else fallbackReality year,
          category := guess_category (predText ++ " " ++ outcome ++ " " ++ hint),
          tags := [], harvested := true } := by
  unfold mkEntry at h
  split at h
  · exact absurd h (by simp)
  · next hn => injection h with h; exact ⟨hn, h.symm⟩

theorem mkEntry_ne_crash (claimant predText outcome : String) (year : Nat) (hint : String)
    (existing : List String) :
    mkEntry claimant predText outcome year hint existing ≠ .crash := by
  unfold mkEntry
  split <;> simp

theorem accept_spec {row : List String} {hint : String} {existing : List String} {e : Entry}
    (h : row_to_entry row hint existing = .accept e) :
    ∃ c0 tok year claimant predText outcome,
      (row.map clean).get? 0 = some c0 ∧
      findYear none c0.toList = some tok ∧
      digitsToNat? tok = some year ∧
      year < 2026 ∧ 3 ≤ row.length ∧
      ((4 ≤ (row.map clean).length ∧
        (row.map clean).get? 1 = some claimant ∧ (row.map clean).get? 2 = some predText ∧
        outcome = (if 3 < (row.map clean).length then (row.map clean).getD 3 "" else "")) ∨
       ((row.map clean).length < 4 ∧
        (row.map clean).get? 1 = some claimant ∧ predText = claimant ∧
        outcome = (if 2 < (row.map clean).length then (row.map clean).getD 2 "" else ""))) ∧
      ¬(predText = "" ∨ predText.length < 15) ∧
      e = { id := ensureUnique (slugify (claimant ++ "-" ++ takeS 20 predText) year) existing,
            year := year, prediction := predText,
            source := if claimant ≠ "" ∧ claimant ≠ predText then claimant else "Unknown",
            reality := if outcome ≠ "" ∧ 20 < outcome.length ∧ pyLower outcome ∉ LOW_INFO
                       then outcome else fallbackReality year,
            category := guess_category (predText ++ " " ++ outcome ++ " " ++ hint),
            tags := [], harvested := true } := by
  unfold row_to_entry at h
  split at h
  · exact absurd h (by simp)
  rename_i h3
  split at h
  · exact absurd h (by simp)
  rename_i c0 hc0
  split at h
  · exact absurd h (by simp)
  rename_i hHdr
  split at h
  · exact absurd h (by simp)
  rename_i hNE
  split at h
  · exact absurd h (by simp)
  rename_i tok htok
  split at h
  · exact absurd h (by simp)
  rename_i year hyear
  split at h
  · exact absurd h (by simp)
  rename_i hy26
  split at h
  · rename_i h4
    split at h
    · rename_i claimant predText hc1 hc2
      obtain ⟨hp, he⟩ := mkEntry_accept h
      exact ⟨c0, tok, year, claimant, predText, _, hc0, htok, hyear, by omega, by omega,
        Or.inl ⟨h4, hc1, hc2, rfl⟩, hp, he⟩
    all_goals exact absurd h (by simp)
  · rename_i h4
    split at h
    · rename_i claimant hc1
      obtain ⟨hp, he⟩ := mkEntry_accept h
      exact ⟨c0, tok, year, claimant, claimant, _, hc0, htok, hyear, by omega, by omega,
        Or.inr ⟨by omega, hc1, rfl, rfl⟩, hp, he⟩
    · exact absurd h (by simp)

theorem row_to_entry_ne_crash (row : List String) (hint : String) (existing : List String) :
    row_to_entry row hint existing ≠ .crash := by
  intro h
  unfold row_to_entry at h
  split at h
  · exact absurd h (by simp)
  rename_i h3
  have hlen : (row.map clean).length = row.length := List.length_map _ _
  split at h
  · rename_i hc0
    rw [List.get?_eq_none] at hc0
    omega
  rename_i c0 hc0
  split at h
  · exact absurd h (by simp)
  rename_i hHdr
  split at h
  · exact absurd h (by simp)
  rename_i hNE
  have hNE3 : ¬((row.map clean).length < 3) := fun hh => hNE (Or.inl hh)
  split at h
  · exact absurd h (by simp)
  rename_i tok htok
  split at h
  · rename_i hdn
    obtain ⟨a, b, c, d, rfl, hpat⟩ := findYear_shape htok
    rw [(yearPat_bounds hpat).1] at hdn
    exact absurd hdn (by simp)
  rename_i year hyear
  split at h
  · exact absurd h (by simp)
  rename_i hy26
  split at h
  · rename_i h4
    have h1 : (row.map clean).get? 1 = some ((row.map clean).get ⟨1, by omega⟩) :=
      List.get?_eq_get (by omega)
    have h2 : (row.map clean).get? 2 = some ((row.map clean).get ⟨2, by omega⟩) :=
      List.get?_eq_get (by omega)
    rw [h1, h2] at h
    exact absurd h (mkEntry_ne_crash _ _ _ _ _ _)
  · rename_i h4
    have h1 : (row.map clean).get? 1 = some ((row.map clean).get ⟨1, by omega⟩) :=
      List.get?_eq_get (by omega)
    rw [h1] at h
    exact absurd h (mkEntry_ne_crash _ _ _ _ _ _)

/-! ## The run loop preserves identifier uniqueness -/

theorem runRows_fold (targets : List (List String × String)) :
    ∀ (es : List Entry) (ids : List String), ids.Nodup →
      ∃ newES, targets.foldl runStep (es, ids) = (es ++ newES, ids ++ newES.map Entry.id) ∧
        (ids ++ newES.map Entry.id).Nodup := by
  induction targets with
  | nil => intro es ids h; exact ⟨[], by simp, by simpa⟩
  | cons t ts ih =>
    intro es ids h
    rw [List.foldl_cons]
    cases hr : row_to_entry t.1 t.2 ids with
    | accept e =>
      have hid : e.id ∉ ids := by
        obtain ⟨c0, tok, year, claimant, predText, outcome, _, _, _, _, _, _, _, he⟩ :=
          accept_spec hr
        subst he
        exact ensureUnique_not_mem _ _
      have h2 : (ids ++ [e.id]).Nodup := by
        refine List.Nodup.append h (List.nodup_singleton _) ?_
        intro a ha hb
        rw [List.mem_singleton] at hb
        subst hb
        exact hid ha
      have hstep : runStep (es, ids) t = (es ++ [e], ids ++ [e.id]) := by
        simp [runStep, hr]
      rw [hstep]
      obtain ⟨newES, heq, hnd⟩ := ih (es ++ [e]) (ids ++ [e.id]) h2
      refine ⟨e :: newES, ?_, ?_⟩
      · rw [heq]
        simp
      · simpa using hnd
    | reject =>
      have hstep : runStep (es, ids) t = (es, ids) := by simp [runStep, hr]
      rw [hstep]
      exact ih es ids h
    | crash =>
      have hstep : runStep (es, ids) t = (es, ids) := by simp [runStep, hr]
      rw [hstep]
      exact ih es ids h

/-! ## Facts about the category maximum -/

theorem pickBest_le (sc : String → Nat) : ∀ (cs : List String) (best : String),
    sc best ≤ sc (pickBest sc best cs) ∧ ∀ c ∈ cs, sc c ≤ sc (pickBest sc best cs) := by
  intro cs
  induction cs with
  | nil => intro best; exact ⟨le_refl _, by simp⟩
  | cons c cs ih =>
    intro best
    simp only [pickBest]
    by_cases hc : sc best < sc c
    · rw [if_pos hc]
      obtain ⟨h1, h2⟩ := ih c
      refine ⟨le_of_lt (lt_of_lt_of_le hc h1), ?_⟩
      intro x hx
      rcases List.mem_cons.mp hx with rfl | hx
      · exact h1
      · exact h2 x hx
    · rw [if_neg hc]
      obtain ⟨h1, h2⟩ := ih best
      refine ⟨h1, ?_⟩
      intro x hx
      rcases List.mem_cons.mp hx with rfl | hx
      · exact le_trans (le_of_not_lt hc) h1
      · exact h2 x hx

theorem pickBest_decomp (sc : String → Nat) : ∀ (cs : List String) (best : String),
    ∃ l1 l2, best :: cs = l1 ++ pickBest sc best cs :: l2 ∧
      (∀ b ∈ l1, sc b < sc (pickBest sc best cs)) ∧
      (∀ b ∈ l2, sc b ≤ sc (pickBest sc best cs)) := by
  intro cs
  induction cs with
  | nil => intro best; exact ⟨[], [], by simp [pickBest], by simp, by simp⟩
  | cons c cs ih =>
    intro best
    simp only [pickBest]
    by_cases hc : sc best < sc c
    · rw [if_pos hc]
      obtain ⟨l1, l2, heq, hl1, hl2⟩ := ih c
      refine ⟨best :: l1, l2, by rw [List.cons_append, ← heq], ?_, hl2⟩
      intro b hb
      rcases List.mem_cons.mp hb with rfl | hb
      · exact lt_of_lt_of_le hc (pickBest_le sc cs c).1
      · exact hl1 b hb
    · rw [if_neg hc]
      obtain ⟨l1, l2, heq, hl1, hl2⟩ := ih best
      cases l1 with
      | nil =>
        simp only [List.nil_append] at heq
        have hb : best = pickBest sc best cs := (List.cons.injEq _ _ _ _).mp heq |>.1
        have hcs : cs = l2 := (List.cons.injEq _ _ _ _).mp heq |>.2
        refine ⟨[], c :: l2, ?_, by simp, ?_⟩
        · simp only [List.nil_append]
          rw [← hb, ← hcs]
        · intro b hbm
          rcases List.mem_cons.mp hbm with rfl | hbm
          · exact le_trans (le_of_not_lt hc) (le_of_eq (congrArg sc hb))
          · exact hl2 b hbm
      | cons b0 l1' =>
        simp only [List.cons_append] at heq
        have hb0 : best = b0 := (List.cons.injEq _ _ _ _).mp heq |>.1
        have hcs : cs = l1' ++ pickBest sc best cs :: l2 := (List.cons.injEq _ _ _ _).mp heq |>.2
        refine ⟨b0 :: c :: l1', l2, ?_, ?_, hl2⟩
        · simp only [List.cons_append]
          rw [← hb0, ← hcs]
        · intro b hbm
          have hbest : sc best < sc (pickBest sc best cs) := by
            apply hl1
            rw [hb0]
            exact List.mem_cons_self _ _
          rcases List.mem_cons.mp hbm with rfl | hbm
          · rw [← hb0]; exact hbest
          · rcases List.mem_cons.mp hbm with rfl | hbm
            · exact lt_of_le_of_lt (le_of_not_lt hc) hbest
            · exact hl1 b (List.mem_cons_of_mem _ hbm)

/-! ## Trimming lemmas -/

theorem dropWhile_idem {α : Type} (p : α → Bool) (l : List α) :
    (l.dropWhile p).dropWhile p = l.dropWhile p := by
  induction l with
  | nil => rfl
  | cons a t ih =>
    by_cases h : p a
    · simp [List.dropWhile_cons, h, ih]
    · simp [List.dropWhile_cons, h]

theorem head_dropWhile {α : Type} (p : α → Bool) (l : List α) :
    ∀ a, (l.dropWhile p).head? = some a → p a = false := by
  induction l with
  | nil => intro a h; simp at h
  | cons c t ih =>
    intro a h
    by_cases hc : p c
    · rw [List.dropWhile_cons, if_pos hc] at h
      exact ih a h
    · rw [List.dropWhile_cons, if_neg hc] at h
      simp only [List.head?_cons, Option.some.injEq] at h
      subst h
      exact Bool.eq_false_iff.mpr hc

theorem dropWhile_eq_self {α : Type} (p : α → Bool) (l : List α)
    (h : ∀ a, l.head? = some a → p a = false) : l.dropWhile p = l := by
  cases l with
  | nil => rfl
  | cons c t => rw [List.dropWhile_cons, if_neg (by simp [h c rfl])]

theorem revDrop_head {α : Type} (p : α → Bool) (m : List α) :
    (m.reverse.dropWhile p).reverse = [] ∨
      ((m.reverse.dropWhile p).reverse).head? = m.head? := by
  cases hdw : m.reverse.dropWhile p with
  | nil => left; simp [hdw]
  | cons x xs =>
    right
    have hsplit : m.reverse = m.reverse.takeWhile p ++ m.reverse.dropWhile p :=
      (List.takeWhile_append_dropWhile p m.reverse).symm
    have hm : m = (x :: xs).reverse ++ (m.reverse.takeWhile p).reverse := by
      have := congrArg List.reverse hsplit
      simpa [hdw, List.reverse_append] using this
    conv_rhs => rw [hm]
    rw [List.head?_append_of_ne_nil _ (by simp)]

theorem pyStripL_idem (l : List Char) : pyStripL (pyStripL l) = pyStripL l := by
  rcases revDrop_head isPyWs (l.dropWhile isPyWs) with h | h
  · have hl : pyStripL l = [] := h
    rw [hl]
    rfl
  · have hm : ∀ a, (l.dropWhile isPyWs).head? = some a → isPyWs a = false :=
      head_dropWhile isPyWs l
    have hft : (pyStripL l).dropWhile isPyWs = pyStripL l := by
      apply dropWhile_eq_self
      intro a ha
      exact hm a (h ▸ ha)
    show ((((pyStripL l).dropWhile isPyWs).reverse).dropWhile isPyWs).reverse = pyStripL l
    rw [hft]
    unfold pyStripL
    rw [List.reverse_reverse, dropWhile_idem]

theorem pyStrip_idem (s : String) : pyStrip (pyStrip s) = pyStrip s :=
  congrArg String.mk (pyStripL_idem s.toList)

/-! ## Parser simulation lemmas -/

theorem feed_append (st : PState) (ts1 ts2 : List Tok) :
    feed st (ts1 ++ ts2) = feed (feed st ts1) ts2 := by
  simp [feed, List.foldl_append]

theorem feed_cell (tb : List (List (List String))) (T : List (List String))
    (r : List String) (c : String) :
    feed ⟨tb, some T, some r, none, 1⟩ (cellToks c) =
      ⟨tb, some T, some (r ++ [pyStrip c]), none, 1⟩ := by
  show stepTok (stepTok (stepTok ⟨tb, some T, some r, none, 1⟩ (.start "td")) (.data c))
      (.close "td") = _
  have h1 : stepTok ⟨tb, some T, some r, none, 1⟩ (.start "td") =
      ⟨tb, some T, some r, some [], 1⟩ := rfl
  rw [h1]
  by_cases h : pyStrip c = ""
  · have h2 : stepTok ⟨tb, some T, some r, some [], 1⟩ (.data c) =
        ⟨tb, some T, some r, some [], 1⟩ := by
      simp [stepTok, handleData, h]
    rw [h2]
    have h3 : stepTok ⟨tb, some T, some r, some [], 1⟩ (.close "td") =
        ⟨tb, some T, some (r ++ [cellText []]), none, 1⟩ := rfl
    rw [h3, show cellText [] = "" from rfl, h]
  · have h2 : stepTok ⟨tb, some T, some r, some [], 1⟩ (.data c) =
        ⟨tb, some T, some r, some [pyStrip c], 1⟩ := by
      simp [stepTok, handleData, h]
    rw [h2]
    have h3 : stepTok ⟨tb, some T, some r, some [pyStrip c], 1⟩ (.close "td") =
        ⟨tb, some T, some (r ++ [cellText [pyStrip c]]), none, 1⟩ := rfl
    rw [h3, show cellText [pyStrip c] = pyStrip (pyStrip c) from rfl, pyStrip_idem]

theorem feed_cells (cs : List String) :
    ∀ (tb : List (List (List String))) (T : List (List String)) (r : List String),
    feed ⟨tb, some T, some r, none, 1⟩ (cs.flatMap cellToks) =
      ⟨tb, some T, some (r ++ cs.map pyStrip), none, 1⟩ := by
  induction cs with
  | nil => intro tb T r; simp [feed]
  | cons c cs ih =>
    intro tb T r
    rw [List.flatMap_cons, feed_append, feed_cell, ih]
    simp

theorem feed_row (r : List String) (tb : List (List (List String))) (T : List (List String)) :
    feed ⟨tb, some T, none, none, 1⟩ (rowToks r) =
      ⟨tb, some (T ++ if r = [] then [] else [r.map pyStrip]), none, none, 1⟩ := by
  unfold rowToks
  rw [feed_append, feed_append]
  have h1 : feed ⟨tb, some T, none, none, 1⟩ [.start "tr"] = ⟨tb, some T, some [], none, 1⟩ := rfl
  rw [h1, feed_cells]
  by_cases h : r = []
  · subst h
    show stepTok ⟨tb, some T, some ([] ++ List.map pyStrip []), none, 1⟩ (.close "tr") = _
    simp [stepTok, handleEnd]
  · show stepTok ⟨tb, some T, some ([] ++ r.map pyStrip), none, 1⟩ (.close "tr") = _
    simp [stepTok, handleEnd, h]

theorem procRows_cons (r : List String) (rs : List (List String)) :
    procRows (r :: rs) = (if r = [] then [] else [r.map pyStrip]) ++ procRows rs := by
  by_cases h : r = [] <;> simp [procRows, List.filter_cons, h]

theorem feed_rows (rs : List (List String)) :
    ∀ (tb : List (List (List String))) (T : List (List String)),
    feed ⟨tb, some T, none, none, 1⟩ (rs.flatMap rowToks) =
      ⟨tb, some (T ++ procRows rs), none, none, 1⟩ := by
  induction rs with
  | nil => intro tb T; simp [feed, procRows]
  | cons r rs ih =>
    intro tb T
    rw [List.flatMap_cons, feed_append, feed_row, ih, procRows_cons]
    simp

theorem feed_cell_d2 (c : String) (tb : List (List (List String)))
    (tt : Option (List (List String))) (rr : Option (List String)) (cel : List String) :
    feed ⟨tb, tt, rr, some cel, 2⟩ (cellToks c) =
      ⟨tb, tt, rr, some (cel ++ if pyStrip c = "" then [] else [pyStrip c]), 2⟩ := by
  show stepTok (stepTok (stepTok ⟨tb, tt, rr, some cel, 2⟩ (.start "td")) (.data c))
      (.close "td") = _
  have h1 : stepTok ⟨tb, tt, rr, some cel, 2⟩ (.start "td") = ⟨tb, tt, rr, some cel, 2⟩ := by
    simp [stepTok, handleStart]
  rw [h1]
  by_cases h : pyStrip c = ""
  · have h2 : stepTok ⟨tb, tt, rr, some cel, 2⟩ (.data c) = ⟨tb, tt, rr, some cel, 2⟩ := by
      simp [stepTok, handleData, h]
    rw [h2, if_pos h]
    simp [stepTok, handleEnd]
  · have h2 : stepTok ⟨tb, tt, rr, some cel, 2⟩ (.data c) =
        ⟨tb, tt, rr, some (cel ++ [pyStrip c]), 2⟩ := by
      simp [stepTok, handleData, h]
    rw [h2, if_neg h]
    simp [stepTok, handleEnd]

theorem feed_cells_d2 (cs : List String) :
    ∀ (tb : List (List (List String))) (tt : Option (List (List String)))
      (rr : Option (List String)) (cel : List String),
    feed ⟨tb, tt, rr, some cel, 2⟩ (cs.flatMap cellToks) =
      ⟨tb, tt, rr, some (cel ++ (cs.map pyStrip).filter (· ≠ "")), 2⟩ := by
  induction cs with
  | nil => intro tb tt rr cel; simp [feed]
  | cons c cs ih =>
    intro tb tt rr cel
    rw [List.flatMap_cons, feed_append, feed_cell_d2, ih]
    by_cases h : pyStrip c = "" <;> simp [List.filter_cons, h]

theorem feed_row_d2 (r : List String) (tb : List (List (List String)))
    (tt : Option (List (List String))) (rr : Option (List String)) (cel : List String) :
    feed ⟨tb, tt, rr, some cel, 2⟩ (rowToks r) =
      ⟨tb, tt, rr, some (cel ++ (r.map pyStrip).filter (· ≠ "")), 2⟩ := by
  unfold rowToks
  rw [feed_append, feed_append]
  have h1 : feed ⟨tb, tt, rr, some cel, 2⟩ [.start "tr"] = ⟨tb, tt, rr, some cel, 2⟩ := by
    simp [feed, stepTok, handleStart]
  rw [h1, feed_cells_d2]
  simp [feed, stepTok, handleEnd]

theorem innerData_cons (r : List String) (rs : List (List String)) :
    innerData (r :: rs) = (r.map pyStrip).filter (· ≠ "") ++ innerData rs := by
  simp [innerData]

theorem feed_rows_d2 (rs : List (List String)) :
    ∀ (tb : List (List (List String))) (tt : Option (List (List String)))
      (rr : Option (List String)) (cel : List String),
    feed ⟨tb, tt, rr, some cel, 2⟩ (rs.flatMap rowToks) =
      ⟨tb, tt, rr, some (cel ++ innerData rs), 2⟩ := by
  induction rs with
  | nil => intro tb tt rr cel; simp [feed, innerData]
  | cons r rs ih =>
    intro tb tt rr cel
    rw [List.flatMap_cons, feed_append, feed_row_d2, ih, innerData_cons]
    simp

theorem feed_table_d2 (inner : List (List String)) (tb : List (List (List String)))
    (T : List (List String)) (r : List String) (cel : List String) :
    feed ⟨tb, some T, some r, some cel, 1⟩ (tableToks inner) =
      ⟨tb, some T, some r, some (cel ++ innerData inner), 1⟩ := by
  unfold tableToks
  rw [feed_append, feed_append]
  have h1 : feed ⟨tb, some T, some r, some cel, 1⟩ [.start "table"] =
      ⟨tb, some T, some r, some cel, 2⟩ := by
    simp [feed, stepTok, handleStart]
  rw [h1, feed_rows_d2]
  simp [feed, stepTok, handleEnd]

theorem extract_nested (pre post : List (List String)) (cpre cpost : List String)
    (c : String) (inner : List (List String)) :
    extract_tables (nestedToks pre cpre c inner cpost post) =
      [procRows pre ++
        [cpre.map pyStrip ++ [nestedCellText c inner] ++ cpost.map pyStrip] ++
        procRows post] := by
  unfold extract_tables nestedToks
  simp only [feed_append]
  rw [show feed initState [Tok.start "table"] = ⟨[], some [], none, none, 1⟩ from rfl]
  rw [feed_rows]
  rw [show feed ⟨[], some ([] ++ procRows pre), none, none, 1⟩ [Tok.start "tr"] =
      ⟨[], some ([] ++ procRows pre), some [], none, 1⟩ from rfl]
  rw [feed_cells]
  have h3 : feed ⟨[], some ([] ++ procRows pre), some ([] ++ cpre.map pyStrip), none, 1⟩
      [Tok.start "td", Tok.data c] =
      ⟨[], some ([] ++ procRows pre), some ([] ++ cpre.map pyStrip),
        some (if pyStrip c ≠ "" then [pyStrip c] else []), 1⟩ := by
    show stepTok (stepTok ⟨[], some ([] ++ procRows pre), some ([] ++ cpre.map pyStrip),
        none, 1⟩ (.start "td")) (.data c) = _
    rw [show stepTok ⟨[], some ([] ++ procRows pre), some ([] ++ cpre.map pyStrip),
        none, 1⟩ (.start "td") =
      ⟨[], some ([] ++ procRows pre), some ([] ++ cpre.map pyStrip), some [], 1⟩ from rfl]
    by_cases h : pyStrip c = "" <;> simp [stepTok, handleData, h]
  rw [h3, feed_table_d2]
  have h4 : feed ⟨[], some ([] ++ procRows pre), some ([] ++ cpre.map pyStrip),
      some ((if pyStrip c ≠ "" then [pyStrip c] else []) ++ innerData inner), 1⟩
      [Tok.close "td"] =
      ⟨[], some ([] ++ procRows pre),
        some (([] ++ cpre.map pyStrip) ++ [nestedCellText c inner]), none, 1⟩ := rfl
  rw [h4, feed_cells]
  have h5 : feed ⟨[], some ([] ++ procRows pre),
      some ((([] ++ cpre.map pyStrip) ++ [nestedCellText c inner]) ++ cpost.map pyStrip),
      none, 1⟩ [Tok.close "tr"] =
      ⟨[], some (([] ++ procRows pre) ++
        [(([] ++ cpre.map pyStrip) ++ [nestedCellText c inner]) ++ cpost.map pyStrip]),
        none, none, 1⟩ := by
    show stepTok ⟨[], some ([] ++ procRows pre),
      some ((([] ++ cpre.map pyStrip) ++ [nestedCellText c inner]) ++ cpost.map pyStrip),
      none, 1⟩ (.close "tr") = _
    simp [stepTok, handleEnd]
  rw [h5, feed_rows]
  rw [show feed ⟨[], some ((([] ++ procRows pre) ++
      [(([] ++ cpre.map pyStrip) ++ [nestedCellText c inner]) ++ cpost.map pyStrip]) ++
      procRows post), none, none, 1⟩ [Tok.close "table"] =
      ⟨[((([] ++ procRows pre) ++
        [(([] ++ cpre.map pyStrip) ++ [nestedCellText c inner]) ++ cpost.map pyStrip]) ++
        procRows post)], none, none, none, 0⟩ from rfl]
  simp

/-! ## Concrete evaluation of the scenario row -/

set_option maxRecDepth 10000 in
theorem sample_accept : row_to_entry sampleRow "" [] = .accept sampleEntry := by rfl

/-! ## Claim theorems -/

/-- C1 (corrected) and C1 counterexample part: the scenario row is
accepted with year 1999, source Ravi Batra and the given prediction, but
the reality field is not the outcome cell text: the outcome has only 17
characters, below the 21-character threshold, so the synthesized fallback
sentence naming 1999 + 5 = 2004 is used instead. -/
theorem C1_reality_counterexample :
    row_to_entry sampleRow "" [] = .accept sampleEntry ∧
    sampleEntry.year = 1999 ∧ sampleEntry.source = "Ravi Batra" ∧
    sampleEntry.prediction = "The US economy will collapse by 2000 due to debt" ∧
    sampleEntry.reality ≠ "It did not happen" :=
  ⟨sample_accept, rfl, rfl, rfl, by decide⟩

set_option maxRecDepth 10000 in
/-- C1 (amended): for the scenario row, any hint and an empty known-id
set, the classifier accepts, with year 1999, source Ravi Batra, the given
prediction, and reality equal to the synthesized fallback sentence naming
the year 2004 (not the outcome cell, whose text is too short). -/
theorem C1_sample_row_classified (hint : String) :
    row_to_entry sampleRow hint [] = .accept
      { id := "1999-ravi-batra-the-us-economy-will", year := 1999,
        prediction := "The US economy will collapse by 2000 due to debt",
        source := "Ravi Batra",
        reality := "The predicted event did not occur as described by 2004.",
        category := guess_category ("The US economy will collapse by 2000 due to debt" ++ " " ++
          "It did not happen" ++ " " ++ hint),
        tags := [], harvested := true } := by rfl

/-- Witness for C1: the amended statement instantiated at a concrete
hint. -/
theorem C1_sample_row_classified_witness :
    row_to_entry sampleRow "doom" [] = .accept
      { id := "1999-ravi-batra-the-us-economy-will", year := 1999,
        prediction := "The US economy will collapse by 2000 due to debt",
        source := "Ravi Batra",
        reality := "The predicted event did not occur as described by 2004.",
        category := guess_category ("The US economy will collapse by 2000 due to debt" ++ " " ++
          "It did not happen" ++ " " ++ "doom"),
        tags := [], harvested := true } :=
  C1_sample_row_classified "doom"

/-- C4: after any run, the identifiers of the accepted records together
with the pre-existing ones are pairwise distinct, and the final known set
is exactly the pre-existing identifiers followed by the new ones, because
the known set is extended before the next row is classified. -/
theorem C4_run_ids_unique (targets : List (List String × String)) (known : List String)
    (hknown : known.Nodup) :
    ((runRows targets known).1.map Entry.id ++ known).Nodup ∧
    (runRows targets known).2 = known ++ (runRows targets known).1.map Entry.id := by
  obtain ⟨newES, heq, hnd⟩ := runRows_fold targets [] known hknown
  unfold runRows
  rw [heq]
  constructor
  · simp only [List.nil_append]
    exact (List.perm_append_comm).nodup_iff.mpr hnd
  · simp

/-- Witness for C4: a concrete one-row run from an empty store. -/
theorem C4_run_ids_unique_witness :
    ((runRows sampleTargets []).1.map Entry.id ++ []).Nodup ∧
    (runRows sampleTargets []).2 = [] ++ (runRows sampleTargets []).1.map Entry.id :=
  C4_run_ids_unique sampleTargets [] List.nodup_nil

/-- C5: every accepted record has 1000 ≤ year < 2026; the year is the
value of a four-digit token found in the first cleaned cell by the
pattern restricted to 1000 to 1999 and 2000 to 2029, and years of 2026
and above are rejected before acceptance. -/
theorem C5_accepted_year_bound {row : List String} {hint : String} {existing : List String}
    {e : Entry} (h : row_to_entry row hint existing = .accept e) :
    1000 ≤ e.year ∧ e.year < 2026 ∧
    ∃ c0 tok, (row.map clean).get? 0 = some c0 ∧ findYear none c0.toList = some tok ∧
      digitsToNat? tok = some e.year := by
  obtain ⟨c0, tok, year, claimant, predText, outcome, hc0, htok, hyear, h26, _, _, _, he⟩ :=
    accept_spec h
  obtain ⟨a, b, c, d, rfl, hpat⟩ := findYear_shape htok
  obtain ⟨hv, hlo, hhi⟩ := yearPat_bounds hpat
  rw [hv] at hyear
  injection hyear with hyear
  subst he
  refine ⟨?_, ?_, c0, [a, b, c, d], hc0, htok, ?_⟩
  · show 1000 ≤ year
    omega
  · show year < 2026
    omega
  · show digitsToNat? [a, b, c, d] = some year
    rw [hv, hyear]

/-- Witness for C5: the scenario row is accepted and its year is in
bounds. -/
theorem C5_accepted_year_bound_witness :
    1000 ≤ sampleEntry.year ∧ sampleEntry.year < 2026 ∧
    ∃ c0 tok, (sampleRow.map clean).get? 0 = some c0 ∧ findYear none c0.toList = some tok ∧
      digitsToNat? tok = some sampleEntry.year :=
  C5_accepted_year_bound sample_accept

/-- C6: the category guesser is total over the eight enumerated values;
when every category scores zero it returns the default, and when some
category scores positively it returns the first enumerated category of
maximal score: every earlier category scores strictly less and every later
one at most as much. -/
theorem C6_guess_category_spec (text : String) :
    guess_category text ∈ VALID_CATEGORIES ∧
    ((∀ c ∈ VALID_CATEGORIES, catScore text c = 0) →
      guess_category text = "Political Catastrophe") ∧
    ((∃ c ∈ VALID_CATEGORIES, 0 < catScore text c) →
      ∃ l1 l2, VALID_CATEGORIES = l1 ++ guess_category text :: l2 ∧
        (∀ b ∈ l1, catScore text b < catScore text (guess_category text)) ∧
        (∀ b ∈ l2, catScore text b ≤ catScore text (guess_category text))) := by
  obtain ⟨l1, l2, heq, hl1, hl2⟩ :=
    pickBest_decomp (catScore text) VALID_CATEGORIES.tail (VALID_CATEGORIES.headD "")
  have heqVC : VALID_CATEGORIES = l1 ++ bestCat text :: l2 := heq
  have hmax : ∀ c ∈ VALID_CATEGORIES, catScore text c ≤ catScore text (bestCat text) := by
    intro c hc
    obtain ⟨h1, h2⟩ := pickBest_le (catScore text) VALID_CATEGORIES.tail (VALID_CATEGORIES.headD "")
    rcases List.mem_cons.mp
        (show c ∈ VALID_CATEGORIES.headD "" :: VALID_CATEGORIES.tail from hc) with rfl | hcc
    · exact h1
    · exact h2 c hcc
  by_cases hpos : 0 < catScore text (bestCat text)
  · have hg : guess_category text = bestCat text := by
      unfold guess_category
      rw [if_pos hpos]
    refine ⟨?_, ?_, ?_⟩
    · rw [hg, heqVC]
      simp
    · intro hz
      exfalso
      have := hz (bestCat text) (by rw [heqVC]; simp)
      omega
    · intro _
      exact ⟨l1, l2, by rw [hg]; exact heqVC, by rw [hg]; exact hl1, by rw [hg]; exact hl2⟩
  · have hg : guess_category text = "Political Catastrophe" := by
      unfold guess_category
      rw [if_neg hpos]
    refine ⟨?_, fun _ => hg, ?_⟩
    · rw [hg]
      simp [VALID_CATEGORIES]
    · rintro ⟨c, hcmem, hc⟩
      exfalso
      have := hmax c hcmem
      omega

/-- Witness for C6: on the empty text every score is zero, so the guess
is the default category. -/
theorem C6_guess_category_spec_witness : guess_category "" = "Political Catastrophe" :=
  (C6_guess_category_spec "").2.1 (by decide)

/-- C8: for every accepted record, the reality field is the selected
outcome cell exactly when that cell is nonempty, longer than 20
characters, and its lowercase form is not a low-information token;
otherwise it is the synthesized sentence naming year + 5 when the year is
before 2020 and 2025 otherwise. -/
theorem C8_reality_rule {row : List String} {hint : String} {existing : List String}
    {e : Entry} (h : row_to_entry row hint existing = .accept e) :
    (outcomeOf row ≠ "" ∧ 20 < (outcomeOf row).length ∧ pyLower (outcomeOf row) ∉ LOW_INFO →
      e.reality = outcomeOf row) ∧
    (¬(outcomeOf row ≠ "" ∧ 20 < (outcomeOf row).length ∧ pyLower (outcomeOf row) ∉ LOW_INFO) →
      e.reality = "The predicted event did not occur as described by " ++
        natStr (if e.year < 2020 then e.year + 5 else 2025) ++ ".") := by
  obtain ⟨c0, tok, year, claimant, predText, outcome, hc0, htok, hyear, h26, h3, hshape, hp, he⟩ :=
    accept_spec h
  have hlen : (row.map clean).length = row.length := List.length_map _ _
  have hout : outcome = outcomeOf row := by
    rcases hshape with ⟨h4, _, _, ho⟩ | ⟨h4, _, _, ho⟩
    · rw [ho]
      unfold outcomeOf
      rw [if_pos (by omega), if_pos h4]
    · rw [ho]
      unfold outcomeOf
      rw [if_pos (by omega), if_neg (by omega)]
  subst he
  constructor
  · intro hcond
    show (if outcome ≠ "" ∧ 20 < outcome.length ∧ pyLower outcome ∉ LOW_INFO then outcome
          else fallbackReality year) = outcomeOf row
    rw [hout, if_pos hcond]
  · intro hcond
    show (if outcome ≠ "" ∧ 20 < outcome.length ∧ pyLower outcome ∉ LOW_INFO then outcome
          else fallbackReality year) = _
    rw [hout, if_neg hcond]
    rfl

/-- Witness for C8: the scenario row falls into the fallback branch. -/
theorem C8_reality_rule_witness :
    (outcomeOf sampleRow ≠ "" ∧ 20 < (outcomeOf sampleRow).length ∧
        pyLower (outcomeOf sampleRow) ∉ LOW_INFO →
      sampleEntry.reality = outcomeOf sampleRow) ∧
    (¬(outcomeOf sampleRow ≠ "" ∧ 20 < (outcomeOf sampleRow).length ∧
        pyLower (outcomeOf sampleRow) ∉ LOW_INFO) →
      sampleEntry.reality = "The predicted event did not occur as described by " ++
        natStr (if sampleEntry.year < 2020 then sampleEntry.year + 5 else 2025) ++ ".") :=
  C8_reality_rule sample_accept

/-- C9: the classifier is total: for every row, hint and known set it
terminates with an accepted record or a rejection, and the would-be
exception outcome of the model is unreachable, every cell access and the
year conversion being guarded by the preceding checks. -/
theorem C9_no_crash (row : List String) (hint : String) (existing : List String) :
    row_to_entry row hint existing ≠ .crash ∧
    ((∃ e, row_to_entry row hint existing = .accept e) ∨
      row_to_entry row hint existing = .reject) := by
  have h := row_to_entry_ne_crash row hint existing
  refine ⟨h, ?_⟩
  cases hr : row_to_entry row hint existing with
  | crash => exact absurd hr h
  | reject => exact Or.inr rfl
  | accept e => exact Or.inl ⟨e, rfl⟩

/-- Witness for C9: the empty row is handled without the exception
outcome. -/
theorem C9_no_crash_witness :
    row_to_entry [] "" [] ≠ .crash ∧
    ((∃ e, row_to_entry [] "" [] = .accept e) ∨ row_to_entry [] "" [] = .reject) :=
  C9_no_crash [] "" []

/-- C3: markup of one well-formed outer table with a second table nested
inside one of its cells yields exactly one extracted table, whose rows
are the processed outer rows, the enclosing cell carrying the full text
content of that cell; no row coming from the nested table is emitted:
every processed inner row distinct from all outer rows is absent from the
result. -/
theorem C3_nested_single_table (pre post : List (List String)) (cpre cpost : List String)
    (c : String) (inner : List (List String)) :
    extract_tables (nestedToks pre cpre c inner cpost post) =
      [procRows pre ++
        [cpre.map pyStrip ++ [nestedCellText c inner] ++ cpost.map pyStrip] ++
        procRows post] ∧
    (extract_tables (nestedToks pre cpre c inner cpost post)).length = 1 ∧
    ∀ r ∈ procRows inner,
      r ∉ procRows pre ++
        [cpre.map pyStrip ++ [nestedCellText c inner] ++ cpost.map pyStrip] ++
        procRows post →
      ∀ t ∈ extract_tables (nestedToks pre cpre c inner cpost post), r ∉ t := by
  have h := extract_nested pre post cpre cpost c inner
  refine ⟨h, by rw [h]; rfl, ?_⟩
  intro r _ hrno t ht
  rw [h] at ht
  have := List.mem_singleton.mp ht
  subst this
  exact hrno

/-- Witness for C3: a one-row outer table with a one-row nested table
yields exactly the outer table, the nested text merged into its cell. -/
theorem C3_nested_single_table_witness :
    extract_tables (nestedToks [["x"]] [] "z" [["y"]] [] []) = [[["x"], ["z y"]]] := by
  have h := (C3_nested_single_table [["x"]] [] [] [] "z" [["y"]]).1
  exact h.trans (by rfl)

/-- C10: while a depth-one cell is open, data seen inside a nested table
is appended to that cell: the extracted table holds, at the position of
the enclosing row and cell, the join of the cell chunk with every
nonempty stripped chunk of the nested table, because `handle_data` checks
only that a cell buffer is open and not the nesting depth. -/
theorem C10_nested_text_in_outer_cell (pre post : List (List String)) (cpre cpost : List String)
    (c : String) (inner : List (List String)) :
    ∃ t, extract_tables (nestedToks pre cpre c inner cpost post) = [t] ∧
      t.get? (procRows pre).length =
        some (cpre.map pyStrip ++ [nestedCellText c inner] ++ cpost.map pyStrip) ∧
      (cpre.map pyStrip ++ [nestedCellText c inner] ++ cpost.map pyStrip).get?
          (cpre.map pyStrip).length = some (nestedCellText c inner) ∧
      nestedCellText c inner =
        pyStrip (strJoin " "
          ((if pyStrip c ≠ "" then [pyStrip c] else []) ++ innerData inner)) := by
  refine ⟨_, extract_nested pre post cpre cpost c inner, ?_, ?_, rfl⟩
  · rw [List.get?_append (by simp)]
    exact List.get?_concat_length _ _
  · rw [List.get?_append (by simp)]
    exact List.get?_concat_length _ _

/-! ## Equivalence of the slug substitution with the run formulation -/

theorem good_ne_hyphen {c : Char} (h : isSlug c = true) : (c == '-') = false := by
  cases hbe : (c == '-') with
  | false => rfl
  | true =>
    have hc : c = '-' := by
      have := beq_iff_eq.mp hbe
      exact this
    subst hc
    simp [isSlug] at h

theorem slugRepl_all_good : ∀ (b : Bool) (l : List Char),
    (∀ c ∈ l, isSlug c = true) → slugRepl b l = l := by
  intro b l
  induction l generalizing b with
  | nil => intro _; rfl
  | cons c rest ih =>
    intro h
    have hc : isSlug c = true := h c (by simp)
    simp only [slugRepl, hc, if_true]
    rw [ih false (fun x hx => h x (by simp [hx]))]

theorem slugRepl_append_good : ∀ (run m : List Char),
    (∀ c ∈ run, isSlug c = true) → slugRepl false (run ++ m) = run ++ slugRepl false m := by
  intro run
  induction run with
  | nil => intro m _; rfl
  | cons c run' ih =>
    intro m h
    have hc : isSlug c = true := h c (by simp)
    show slugRepl false (c :: (run' ++ m)) = _
    simp only [slugRepl, hc, if_true, List.cons_append]
    rw [ih m (fun x hx => h x (by simp [hx]))]

theorem slugRepl_true_eq : ∀ l : List Char,
    slugRepl true l = slugRepl false (l.dropWhile nonSlug) := by
  intro l
  induction l with
  | nil => rfl
  | cons c rest ih =>
    by_cases hc : isSlug c
    · have hns : nonSlug c = false := by simp [nonSlug, hc]
      simp [slugRepl, hc, List.dropWhile_cons, hns]
    · have hc' : isSlug c = false := by simpa using hc
      have hns : nonSlug c = true := by simp [nonSlug, hc']
      simp [slugRepl, hc', List.dropWhile_cons, hns, ih]

theorem runsAux_ne_nil : ∀ l : List Char, runsAux l ≠ [] := by
  intro l
  cases l with
  | nil => simp [runsAux]
  | cons c rest =>
    by_cases hc : isSlug c <;> simp [runsAux, hc]

theorem runsAux_eta (m : List Char) :
    runsAux m = (runsAux m).headD [] :: (runsAux m).tail := by
  cases h : runsAux m with
  | nil => exact absurd h (runsAux_ne_nil m)
  | cons x xs => simp

theorem runsAux_append_good : ∀ (run m : List Char), (∀ c ∈ run, isSlug c = true) →
    runsAux (run ++ m) = (run ++ (runsAux m).headD []) :: (runsAux m).tail := by
  intro run
  induction run with
  | nil =>
    intro m _
    simpa using runsAux_eta m
  | cons c run' ih =>
    intro m hgood
    have hc : isSlug c = true := hgood c (by simp)
    show runsAux (c :: (run' ++ m)) = _
    rw [show runsAux (c :: (run' ++ m)) =
      (c :: (runsAux (run' ++ m)).headD []) :: (runsAux (run' ++ m)).tail by
        simp [runsAux, hc]]
    rw [ih m (fun x hx => hgood x (by simp [hx]))]
    simp

theorem goodRuns_cons_bad {c : Char} (hc : isSlug c = false) (l : List Char) :
    goodRuns (c :: l) = goodRuns l := by
  simp [goodRuns, runsAux, hc]

theorem goodRuns_dropWhile : ∀ l : List Char,
    goodRuns (l.dropWhile nonSlug) = goodRuns l := by
  intro l
  induction l with
  | nil => rfl
  | cons c rest ih =>
    by_cases hc : isSlug c
    · have hns : nonSlug c = false := by simp [nonSlug, hc]
      rw [List.dropWhile_cons, if_neg (by simp [hns])]
    · have hc' : isSlug c = false := by simpa using hc
      have hns : nonSlug c = true := by simp [nonSlug, hc']
      rw [List.dropWhile_cons, if_pos (by simp [hns]), ih, goodRuns_cons_bad hc']

theorem goodRuns_all_good (l : List Char) (hne : l ≠ []) (h : ∀ c ∈ l, isSlug c = true) :
    goodRuns l = [l] := by
  have := runsAux_append_good l [] h
  rw [List.append_nil] at this
  simp only [goodRuns, this]
  simp [List.filter_cons, hne, runsAux]

theorem dropWhile_append_split {α : Type} (p : α → Bool) (l1 l2 : List α) :
    (l1 ++ l2).dropWhile p =
      if (l1.dropWhile p).isEmpty then l2.dropWhile p else l1.dropWhile p ++ l2 := by
  induction l1 with
  | nil => simp
  | cons a t ih =>
    by_cases h : p a
    · simp [List.dropWhile_cons, h, ih]
    · simp [List.dropWhile_cons, h]

theorem dropHEnd_append (A B : List Char) :
    dropHEnd (A ++ B) = if dropHEnd B = [] then dropHEnd A else A ++ dropHEnd B := by
  unfold dropHEnd dropH
  rw [List.reverse_append, dropWhile_append_split]
  by_cases h : B.reverse.dropWhile (· == '-') = []
  · rw [if_pos (by simp [h]), if_pos (by simp [h])]
  · rw [if_neg (by simp [h]), if_neg (by simp [h])]
    simp

theorem dropHEnd_cons_hyphen (X : List Char) :
    dropHEnd ('-' :: X) = if dropHEnd X = [] then [] else '-' :: dropHEnd X := by
  have h := dropHEnd_append ['-'] X
  rw [show (['-'] ++ X : List Char) = '-' :: X by simp] at h
  rw [h]
  by_cases hx : dropHEnd X = []
  · rw [if_pos hx, if_pos hx]
    rfl
  · rw [if_neg hx, if_neg hx]
    simp

theorem trimHyph_cons_hyphen (X : List Char) : trimHyph ('-' :: X) = trimHyph X := by
  unfold trimHyph
  rw [dropHEnd_cons_hyphen]
  by_cases hx : dropHEnd X = []
  · rw [if_pos hx, hx]
  · rw [if_neg hx]
    unfold dropH
    rw [List.dropWhile_cons, if_pos (by simp)]

theorem dropH_eq_self_of_head (l : List Char)
    (h : ∀ a, l.head? = some a → (a == '-') = false) : dropH l = l :=
  dropWhile_eq_self _ _ h

theorem dropHEnd_all_good (l : List Char) (h : ∀ c ∈ l, isSlug c = true) :
    dropHEnd l = l := by
  unfold dropHEnd dropH
  rw [dropWhile_eq_self]
  · exact List.reverse_reverse l
  · intro a ha
    have hmem : a ∈ l.reverse := List.mem_of_mem_head? ha
    exact good_ne_hyphen (h a (List.mem_reverse.mp hmem))

theorem trimHyph_all_good (l : List Char) (h : ∀ c ∈ l, isSlug c = true) :
    trimHyph l = l := by
  unfold trimHyph
  rw [dropHEnd_all_good l h]
  apply dropH_eq_self_of_head
  intro a ha
  exact good_ne_hyphen (h a (List.mem_of_mem_head? ha))

theorem intercalate_singleton (g : List Char) : List.intercalate ['-'] [g] = g := by
  simp [List.intercalate]

theorem intercalate_cons_cons (g : List Char) (G : List (List Char)) :
    List.intercalate ['-'] (g :: G) =
      g ++ (if G = [] then [] else '-' :: List.intercalate ['-'] G) := by
  cases G with
  | nil => simp [intercalate_singleton]
  | cons g' G' =>
    rw [if_neg (by simp)]
    simp [List.intercalate, List.intersperse]

theorem goodRuns_mem_ne_nil {l : List Char} {g : List Char} (h : g ∈ goodRuns l) :
    g ≠ [] := by
  have := List.of_mem_filter h
  simpa using this

theorem intercalate_goodRuns_eq_nil_iff (m : List Char) :
    List.intercalate ['-'] (goodRuns m) = [] ↔ goodRuns m = [] := by
  cases h : goodRuns m with
  | nil => simp [List.intercalate]
  | cons g G =>
    have hg : g ≠ [] := goodRuns_mem_ne_nil (by rw [h]; simp)
    rw [intercalate_cons_cons]
    constructor
    · intro hcon
      exfalso
      cases hgc : g with
      | nil => exact hg hgc
      | cons x xs =>
        rw [hgc] at hcon
        simp at hcon
    · intro hcon
      exact absurd hcon (by simp)

theorem slug_equiv_bounded : ∀ n : Nat, ∀ l : List Char, l.length ≤ n →
    trimHyph (slugRepl false l) = List.intercalate ['-'] (goodRuns l) := by
  intro n
  induction n with
  | zero =>
    intro l hl
    have hnil : l = [] := List.eq_nil_of_length_eq_zero (Nat.le_zero.mp hl)
    subst hnil
    rfl
  | succ n ih =>
    intro l hl
    cases l with
    | nil => rfl
    | cons c rest =>
      by_cases hc : isSlug c
      · -- a good head: step over the whole leading run of slug characters
        have hsplit : List.takeWhile isSlug (c :: rest) ++ List.dropWhile isSlug (c :: rest) =
            c :: rest := List.takeWhile_append_dropWhile isSlug (c :: rest)
        have hrun_good : ∀ x ∈ List.takeWhile isSlug (c :: rest), isSlug x = true :=
          fun x hx => List.mem_takeWhile_imp hx
        have hrun_ne : List.takeWhile isSlug (c :: rest) ≠ [] := by
          rw [List.takeWhile_cons, if_pos (by simp [hc])]
          simp
        rw [← hsplit]
        cases hm : List.dropWhile isSlug (c :: rest) with
        | nil =>
          rw [List.append_nil,
            slugRepl_all_good false _ hrun_good,
            trimHyph_all_good _ hrun_good,
            goodRuns_all_good _ hrun_ne hrun_good,
            intercalate_singleton]
        | cons b m₂ =>
          have hbbad : isSlug b = false := by
            apply head_dropWhile isSlug (c :: rest)
            rw [hm]
            rfl
          have hlenle : (List.dropWhile nonSlug m₂).length ≤ n := by
            have h1 : (List.dropWhile nonSlug m₂).length ≤ m₂.length :=
              (List.dropWhile_sublist nonSlug).length_le
            have h2 := congrArg List.length hsplit
            rw [hm] at h2
            simp only [List.length_append, List.length_cons] at h2 hl
            have h3 : 1 ≤ (List.takeWhile isSlug (c :: rest)).length := by
              cases hq : List.takeWhile isSlug (c :: rest) with
              | nil => exact absurd hq hrun_ne
              | cons _ _ => simp
            omega
          have hIH := ih (List.dropWhile nonSlug m₂) hlenle
          have hsr : slugRepl false (b :: m₂) =
              '-' :: slugRepl false (List.dropWhile nonSlug m₂) := by
            rw [show slugRepl false (b :: m₂) = '-' :: slugRepl true m₂ by
              simp [slugRepl, hbbad]]
            rw [slugRepl_true_eq]
          -- head of the recursive result is a slug character or absent
          have hYhead : ∀ a, (slugRepl false (List.dropWhile nonSlug m₂)).head? = some a →
              (a == '-') = false := by
            intro a ha
            cases hm' : List.dropWhile nonSlug m₂ with
            | nil => rw [hm'] at ha; simp [slugRepl] at ha
            | cons g r =>
              have hg : nonSlug g = false := by
                apply head_dropWhile nonSlug m₂
                rw [hm']
                rfl
              have hgg : isSlug g = true := by
                simpa [nonSlug] using hg
              rw [hm'] at ha
              rw [show slugRepl false (g :: r) = g :: slugRepl false r by
                simp [slugRepl, hgg]] at ha
              simp only [List.head?_cons, Option.some.injEq] at ha
              subst ha
              exact good_ne_hyphen hgg
          have htY : trimHyph (slugRepl false (List.dropWhile nonSlug m₂)) =
              dropHEnd (slugRepl false (List.dropWhile nonSlug m₂)) := by
            unfold trimHyph
            rcases revDrop_head (· == '-') (slugRepl false (List.dropWhile nonSlug m₂)) with
              hh | hh
            · have hh' : dropHEnd (slugRepl false (List.dropWhile nonSlug m₂)) = [] := hh
              rw [hh']
              rfl
            · apply dropH_eq_self_of_head
              intro a ha
              apply hYhead
              rw [← hh]
              exact ha
          have hR : dropHEnd (slugRepl false (List.dropWhile nonSlug m₂)) =
              List.intercalate ['-'] (goodRuns (List.dropWhile nonSlug m₂)) := by
            rw [← htY, hIH]
          have hRHS : List.intercalate ['-'] (goodRuns (List.takeWhile isSlug (c :: rest) ++
              b :: m₂)) =
              List.takeWhile isSlug (c :: rest) ++
                (if goodRuns (List.dropWhile nonSlug m₂) = [] then []
                 else '-' ::
                   List.intercalate ['-'] (goodRuns (List.dropWhile nonSlug m₂))) := by
            have hra : runsAux (b :: m₂) = [] :: runsAux m₂ := by
              simp [runsAux, hbbad]
            rw [show goodRuns (List.takeWhile isSlug (c :: rest) ++ b :: m₂) =
                List.takeWhile isSlug (c :: rest) :: goodRuns m₂ by
              unfold goodRuns
              rw [runsAux_append_good _ _ hrun_good, hra]
              simp [List.filter_cons, hrun_ne]]
            rw [intercalate_cons_cons, ← goodRuns_dropWhile m₂]
          -- left side
          rw [slugRepl_append_good _ _ hrun_good, hsr, hRHS]
          by_cases hG : goodRuns (List.dropWhile nonSlug m₂) = []
          · have hRnil : List.intercalate ['-']
                (goodRuns (List.dropWhile nonSlug m₂)) = [] := by
              rw [hG]
              rfl
            unfold trimHyph
            rw [dropHEnd_append, dropHEnd_cons_hyphen, hR, hRnil, if_pos rfl, if_pos rfl,
              dropHEnd_all_good _ hrun_good,
              dropH_eq_self_of_head _ (fun a ha => good_ne_hyphen
                (hrun_good a (List.mem_of_mem_head? ha))), if_pos hG]
            simp
          · have hRne : List.intercalate ['-']
                (goodRuns (List.dropWhile nonSlug m₂)) ≠ [] := fun hh =>
              hG ((intercalate_goodRuns_eq_nil_iff _).mp hh)
            unfold trimHyph
            rw [dropHEnd_append, dropHEnd_cons_hyphen, hR, if_neg hRne,
              if_neg (by simp), if_neg hG]
            rw [dropH_eq_self_of_head]
            intro a ha
            rw [List.head?_append_of_ne_nil _ hrun_ne] at ha
            exact good_ne_hyphen (hrun_good a (List.mem_of_mem_head? ha))
      · have hc' : isSlug c = false := by simpa using hc
        have hsr : slugRepl false (c :: rest) =
            '-' :: slugRepl false (rest.dropWhile nonSlug) := by
          rw [show slugRepl false (c :: rest) = '-' :: slugRepl true rest by
            simp [slugRepl, hc']]
          rw [slugRepl_true_eq]
        have hlen2 : (rest.dropWhile nonSlug).length ≤ n := by
          have : (rest.dropWhile nonSlug).length ≤ rest.length :=
            (List.dropWhile_sublist nonSlug).length_le
          simp only [List.length_cons] at hl
          omega
        rw [hsr, trimHyph_cons_hyphen, ih _ hlen2, goodRuns_dropWhile,
          goodRuns_cons_bad hc']

theorem slug_equiv (l : List Char) :
    trimHyph (slugRepl false l) = List.intercalate ['-'] (goodRuns l) :=
  slug_equiv_bounded l.length l (le_refl _)

/-! ## Lemmas about the marker-removal machines -/

theorem isDig_ne_lb {c : Char} (h : isDig c = true) : c ≠ '[' := by
  intro hc
  subst hc
  simp [isDig] at h

theorem subNum_pass (a : List Char) : ∀ l : List Char, ('[' : Char) ∉ a →
    subNumAux none (a ++ l) = a ++ subNumAux none l := by
  induction a with
  | nil => intro l _; rfl
  | cons c t ih =>
    intro l h
    have hc : c ≠ '[' := fun hh => h (by simp [hh])
    show subNumAux none (c :: (t ++ l)) = _
    rw [show subNumAux none (c :: (t ++ l)) = c :: subNumAux none (t ++ l) by
      simp [subNumAux, hc]]
    rw [ih l (fun hm => h (by simp [hm]))]
    rfl

theorem subNum_consume (ds : List Char) : ∀ (acc : List Char) (l : List Char),
    (∀ c ∈ ds, isDig c = true) → (acc ≠ [] ∨ ds ≠ []) →
    subNumAux (some acc) (ds ++ ']' :: l) = subNumAux none l := by
  induction ds with
  | nil =>
    intro acc l _ hne
    have hacc : acc ≠ [] := by
      rcases hne with h | h
      · exact h
      · exact absurd rfl h
    show subNumAux (some acc) (']' :: l) = _
    simp [subNumAux, hacc, show isDig ']' = false from rfl]
  | cons d ds ih =>
    intro acc l hdig hne
    have hd : isDig d = true := hdig d (by simp)
    show subNumAux (some acc) (d :: (ds ++ ']' :: l)) = _
    rw [show subNumAux (some acc) (d :: (ds ++ ']' :: l)) =
        subNumAux (some (d :: acc)) (ds ++ ']' :: l) by simp [subNumAux, hd]]
    exact ih (d :: acc) l (fun c hc => hdig c (by simp [hc])) (Or.inl (by simp))

theorem subNum_marker (ds : List Char) (l : List Char) (hne : ds ≠ [])
    (hdig : ∀ c ∈ ds, isDig c = true) :
    subNumAux none ('[' :: (ds ++ ']' :: l)) = subNumAux none l := by
  rw [show subNumAux none ('[' :: (ds ++ ']' :: l)) =
      subNumAux (some []) (ds ++ ']' :: l) by simp [subNumAux]]
  exact subNum_consume ds [] l hdig (Or.inr hne)

theorem subNum_skip2 {c : Char} (hd : isDig c = false) (hlb : c ≠ '[') (l : List Char) :
    subNumAux none ('[' :: c :: l) = '[' :: c :: subNumAux none l := by
  simp [subNumAux, hd, hlb]

theorem subNote_pass (a : List Char) : ∀ l : List Char, ('[' : Char) ∉ a →
    subNoteAux none (a ++ l) = a ++ subNoteAux none l := by
  induction a with
  | nil => intro l _; rfl
  | cons c t ih =>
    intro l h
    have hc : c ≠ '[' := fun hh => h (by simp [hh])
    show subNoteAux none (c :: (t ++ l)) = _
    rw [show subNoteAux none (c :: (t ++ l)) = c :: subNoteAux none (t ++ l) by
      simp [subNoteAux, hc]]
    rw [ih l (fun hm => h (by simp [hm]))]
    rfl

theorem subNote_consume (ds : List Char) : ∀ (acc : List Char) (l : List Char),
    (∀ c ∈ ds, isDig c = true) → (acc ≠ [] ∨ ds ≠ []) →
    subNoteAux (some (5, acc)) (ds ++ ']' :: l) = subNoteAux none l := by
  induction ds with
  | nil =>
    intro acc l _ hne
    have hacc : acc ≠ [] := by
      rcases hne with h | h
      · exact h
      · exact absurd rfl h
    show subNoteAux (some (5, acc)) (']' :: l) = _
    simp [subNoteAux, hacc, show isDig ']' = false from rfl]
  | cons d ds ih =>
    intro acc l hdig hne
    have hd : isDig d = true := hdig d (by simp)
    show subNoteAux (some (5, acc)) (d :: (ds ++ ']' :: l)) = _
    rw [show subNoteAux (some (5, acc)) (d :: (ds ++ ']' :: l)) =
        subNoteAux (some (5, d :: acc)) (ds ++ ']' :: l) by simp [subNoteAux, hd]]
    exact ih (d :: acc) l (fun c hc => hdig c (by simp [hc])) (Or.inl (by simp))

theorem subNote_marker (ds : List Char) (l : List Char) (hne : ds ≠ [])
    (hdig : ∀ c ∈ ds, isDig c = true) :
    subNoteAux none ('[' :: 'n' :: 'o' :: 't' :: 'e' :: ' ' :: (ds ++ ']' :: l)) =
      subNoteAux none l := by
  rw [show subNoteAux none ('[' :: 'n' :: 'o' :: 't' :: 'e' :: ' ' :: (ds ++ ']' :: l)) =
      subNoteAux (some (5, [])) (ds ++ ']' :: l) from rfl]
  exact subNote_consume ds [] l hdig (Or.inr hne)

theorem subNote_skipA (l : List Char) :
    subNoteAux none ('[' :: 'a' :: l) = '[' :: 'a' :: subNoteAux none l := rfl

theorem subA_pass (a : List Char) : ∀ l : List Char, ('[' : Char) ∉ a →
    subAAux none (a ++ l) = a ++ subAAux none l := by
  induction a with
  | nil => intro l _; rfl
  | cons c t ih =>
    intro l h
    have hc : c ≠ '[' := fun hh => h (by simp [hh])
    show subAAux none (c :: (t ++ l)) = _
    rw [show subAAux none (c :: (t ++ l)) = c :: subAAux none (t ++ l) by
      simp [subAAux, hc]]
    rw [ih l (fun hm => h (by simp [hm]))]
    rfl

theorem subA_marker (l : List Char) :
    subAAux none ('[' :: 'a' :: ']' :: l) = subAAux none l := rfl

theorem subNum_skip1 {c : Char} (hc : c ≠ '[') (l : List Char) :
    subNumAux none (c :: l) = c :: subNumAux none l := by
  simp [subNumAux, hc]

theorem subNote_skip1 {c : Char} (hc : c ≠ '[') (l : List Char) :
    subNoteAux none (c :: l) = c :: subNoteAux none l := by
  simp [subNoteAux, hc]

theorem subNum_pass_note (ds b' : List Char) (hdig : ∀ c ∈ ds, isDig c = true) :
    subNumAux none ('[' :: 'n' :: 'o' :: 't' :: 'e' :: ' ' :: (ds ++ ']' :: b')) =
      '[' :: 'n' :: 'o' :: 't' :: 'e' :: ' ' :: (ds ++ ']' :: subNumAux none b') := by
  have hnotin : ('[' : Char) ∉ (['o', 't', 'e', ' '] ++ (ds ++ [']']) : List Char) := by
    intro hm
    simp at hm
    exact isDig_ne_lb (hdig _ hm) rfl
  have h4 : subNumAux none ('o' :: 't' :: 'e' :: ' ' :: (ds ++ ']' :: b')) =
      'o' :: 't' :: 'e' :: ' ' :: (ds ++ ']' :: subNumAux none b') := by
    have heq : ('o' :: 't' :: 'e' :: ' ' :: (ds ++ ']' :: b') : List Char) =
        (['o', 't', 'e', ' '] ++ (ds ++ [']'])) ++ b' := by simp
    rw [heq, subNum_pass _ b' hnotin]
    simp
  rw [subNum_skip2 (show isDig 'n' = false from rfl) (by decide), h4]

/-! ## Whitespace normalization lemmas -/

theorem collapse_all_space : ∀ (l : List Char) (b : Bool),
    ∀ c ∈ collapseWsAux b l, isPyWs c = true → c = ' ' := by
  intro l
  induction l with
  | nil => intro b c hc; simp [collapseWsAux] at hc
  | cons x rest ih =>
    intro b c hc hw
    by_cases hx : isPyWs x
    · cases b with
      | true =>
        rw [show collapseWsAux true (x :: rest) = collapseWsAux true rest by
          simp [collapseWsAux, hx]] at hc
        exact ih true c hc hw
      | false =>
        rw [show collapseWsAux false (x :: rest) = ' ' :: collapseWsAux true rest by
          simp [collapseWsAux, hx]] at hc
        rcases List.mem_cons.mp hc with rfl | hc
        · rfl
        · exact ih true c hc hw
    · have hx' : isPyWs x = false := by simpa using hx
      rw [show collapseWsAux b (x :: rest) = x :: collapseWsAux false rest by
        simp [collapseWsAux, hx']] at hc
      rcases List.mem_cons.mp hc with rfl | hc
      · rw [hx'] at hw
        exact absurd hw (by simp)
      · exact ih false c hc hw

theorem collapse_chain : ∀ l : List Char,
    List.Chain' (fun x y => ¬(isPyWs x = true ∧ isPyWs y = true)) (collapseWsAux true l) ∧
    List.Chain' (fun x y => ¬(isPyWs x = true ∧ isPyWs y = true)) (collapseWsAux false l) ∧
    (∀ c, (collapseWsAux true l).head? = some c → isPyWs c = false) := by
  intro l
  induction l with
  | nil =>
    refine ⟨List.chain'_nil, List.chain'_nil, ?_⟩
    intro c hc
    simp [collapseWsAux] at hc
  | cons x rest ih =>
    obtain ⟨ihT, ihF, ihH⟩ := ih
    by_cases hx : isPyWs x
    · have e1 : collapseWsAux true (x :: rest) = collapseWsAux true rest := by
        simp [collapseWsAux, hx]
      have e2 : collapseWsAux false (x :: rest) = ' ' :: collapseWsAux true rest := by
        simp [collapseWsAux, hx]
      refine ⟨e1 ▸ ihT, ?_, ?_⟩
      · rw [e2, List.chain'_cons']
        refine ⟨?_, ihT⟩
        intro y hy
        have hns := ihH y (Option.mem_def.mp hy)
        intro hcon
        rw [hns] at hcon
        exact absurd hcon.2 (by simp)
      · intro c hc
        rw [e1] at hc
        exact ihH c hc
    · have hx' : isPyWs x = false := by simpa using hx
      have e1 : collapseWsAux true (x :: rest) = x :: collapseWsAux false rest := by
        simp [collapseWsAux, hx']
      have e2 : collapseWsAux false (x :: rest) = x :: collapseWsAux false rest := by
        simp [collapseWsAux, hx']
      have hch : List.Chain' (fun x y => ¬(isPyWs x = true ∧ isPyWs y = true))
          (x :: collapseWsAux false rest) := by
        rw [List.chain'_cons']
        refine ⟨?_, ihF⟩
        intro y _ hcon
        rw [hx'] at hcon
        exact absurd hcon.1 (by simp)
      refine ⟨e1 ▸ hch, e2 ▸ hch, ?_⟩
      intro c hc
      rw [e1] at hc
      simp only [List.head?_cons, Option.some.injEq] at hc
      subst hc
      exact hx'

theorem mem_pyStripL {x : Char} {l : List Char} (h : x ∈ pyStripL l) : x ∈ l := by
  unfold pyStripL at h
  rw [List.mem_reverse] at h
  have h2 : x ∈ (l.dropWhile isPyWs).reverse := (List.dropWhile_sublist isPyWs).subset h
  rw [List.mem_reverse] at h2
  exact (List.dropWhile_sublist isPyWs).subset h2

theorem chain_dropWhile {R : Char → Char → Prop} (p : Char → Bool) {l : List Char}
    (h : List.Chain' R l) : List.Chain' R (l.dropWhile p) := by
  have hs := List.takeWhile_append_dropWhile p l
  rw [← hs] at h
  exact (List.chain'_append.mp h).2.1

theorem chain_reverse_sym {l : List Char}
    (h : List.Chain' (fun x y => ¬(isPyWs x = true ∧ isPyWs y = true)) l) :
    List.Chain' (fun x y => ¬(isPyWs x = true ∧ isPyWs y = true)) l.reverse := by
  rw [List.chain'_reverse]
  exact h.imp (fun a b hab => by intro hcon; exact hab ⟨hcon.2, hcon.1⟩)

theorem chain_pyStripL {l : List Char}
    (h : List.Chain' (fun x y => ¬(isPyWs x = true ∧ isPyWs y = true)) l) :
    List.Chain' (fun x y => ¬(isPyWs x = true ∧ isPyWs y = true)) (pyStripL l) := by
  unfold pyStripL
  exact chain_reverse_sym (chain_dropWhile _ (chain_reverse_sym (chain_dropWhile _ h)))

theorem pyStripL_head {l : List Char} :
    ∀ c, (pyStripL l).head? = some c → isPyWs c = false := by
  intro c hc
  rcases revDrop_head isPyWs (l.dropWhile isPyWs) with h | h
  · have hnil : pyStripL l = [] := h
    rw [hnil] at hc
    simp at hc
  · have heq : (pyStripL l).head? = (l.dropWhile isPyWs).head? := h
    rw [heq] at hc
    exact head_dropWhile isPyWs l c hc

theorem pyStripL_last {l : List Char} :
    ∀ c, (pyStripL l).getLast? = some c → isPyWs c = false := by
  intro c hc
  have heq : (pyStripL l).getLast? =
      (((l.dropWhile isPyWs).reverse).dropWhile isPyWs).head? := by
    show ((((l.dropWhile isPyWs).reverse).dropWhile isPyWs).reverse).getLast? = _
    rw [List.getLast?_reverse]
  rw [heq] at hc
  exact head_dropWhile isPyWs _ c hc

/-- C2 counterexample: the third substitution of `clean` removes only the
literal marker with the letter a; a bracketed letter b survives, so the
claim that every bracketed single lowercase letter is removed fails. -/
theorem C2_letter_counterexample : clean "[b]" = "[b]" ∧ ("[b]" : String) ≠ "" :=
  ⟨rfl, by decide⟩

/-- C2 (amended): `clean` removes every bracketed-integer marker, every
bracketed note-with-integer marker, and the exact marker with the letter
a (occurring after text without an opening bracket); and for every input
the result has every whitespace character equal to a single space, no two
adjacent whitespace characters, and no whitespace at either end. -/
theorem C2_clean_spec (a b s : String) (n : Nat) (hA : ('[' : Char) ∉ a.toList) :
    clean (a ++ "[" ++ natStr n ++ "]" ++ b) = clean (a ++ b) ∧
    clean (a ++ "[note " ++ natStr n ++ "]" ++ b) = clean (a ++ b) ∧
    clean (a ++ "[a]" ++ b) = clean (a ++ b) ∧
    (∀ ch ∈ (clean s).toList, isPyWs ch = true → ch = ' ') ∧
    List.Chain' (fun x y => ¬(isPyWs x = true ∧ isPyWs y = true)) (clean s).toList ∧
    (∀ ch, (clean s).toList.head? = some ch → isPyWs ch = false) ∧
    (∀ ch, (clean s).toList.getLast? = some ch → isPyWs ch = false) := by
  have tApp : ∀ x y : String, (x ++ y).toList = x.toList ++ y.toList := fun x y =>
    String.data_append x y
  have hds1 : (natStr n).toList ≠ [] := natStr_ne_nil n
  have hds2 : ∀ c ∈ (natStr n).toList, isDig c = true := natStr_all_digits n
  refine ⟨?_, ?_, ?_, ?_, ?_, ?_, ?_⟩
  · have hL : (a ++ "[" ++ natStr n ++ "]" ++ b).toList =
        a.toList ++ ('[' :: ((natStr n).toList ++ (']' :: b.toList))) := by
      simp [tApp, show ("[" : String).toList = ['['] from rfl,
        show ("]" : String).toList = [']'] from rfl]
    have hR : (a ++ b).toList = a.toList ++ b.toList := tApp a b
    have key : subNumAux none ((a ++ "[" ++ natStr n ++ "]" ++ b).toList) =
        subNumAux none ((a ++ b).toList) := by
      rw [hL, hR, subNum_pass a.toList _ hA, subNum_pass a.toList _ hA,
        subNum_marker _ _ hds1 hds2]
    exact congrArg (fun l =>
      (⟨pyStripL (collapseWsAux false (subAAux none (subNoteAux none l)))⟩ : String)) key
  · have hL : (a ++ "[note " ++ natStr n ++ "]" ++ b).toList =
        a.toList ++
          ('[' :: 'n' :: 'o' :: 't' :: 'e' :: ' ' ::
            ((natStr n).toList ++ (']' :: b.toList))) := by
      simp [tApp, show ("[note " : String).toList = ['[', 'n', 'o', 't', 'e', ' '] from rfl,
        show ("]" : String).toList = [']'] from rfl]
    have k2 : subNoteAux none
        (subNumAux none ((a ++ "[note " ++ natStr n ++ "]" ++ b).toList)) =
        a.toList ++ subNoteAux none (subNumAux none b.toList) := by
      rw [hL, subNum_pass a.toList _ hA, subNum_pass_note _ _ hds2,
        subNote_pass a.toList _ hA, subNote_marker _ _ hds1 hds2]
    have k2' : subNoteAux none (subNumAux none ((a ++ b).toList)) =
        a.toList ++ subNoteAux none (subNumAux none b.toList) := by
      rw [tApp, subNum_pass a.toList _ hA, subNote_pass a.toList _ hA]
    exact congrArg (fun l => (⟨pyStripL (collapseWsAux false (subAAux none l))⟩ : String))
      (k2.trans k2'.symm)
  · have hL : (a ++ "[a]" ++ b).toList = a.toList ++ ('[' :: 'a' :: ']' :: b.toList) := by
      simp [tApp, show ("[a]" : String).toList = ['[', 'a', ']'] from rfl]
    have k3 : subAAux none (subNoteAux none (subNumAux none ((a ++ "[a]" ++ b).toList))) =
        a.toList ++ subAAux none (subNoteAux none (subNumAux none b.toList)) := by
      rw [hL, subNum_pass a.toList _ hA,
        subNum_skip2 (show isDig 'a' = false from rfl) (by decide),
        subNum_skip1 (show (']' : Char) ≠ '[' by decide),
        subNote_pass a.toList _ hA, subNote_skipA,
        subNote_skip1 (show (']' : Char) ≠ '[' by decide),
        subA_pass a.toList _ hA, subA_marker]
    have k3' : subAAux none (subNoteAux none (subNumAux none ((a ++ b).toList))) =
        a.toList ++ subAAux none (subNoteAux none (subNumAux none b.toList)) := by
      rw [tApp, subNum_pass a.toList _ hA, subNote_pass a.toList _ hA,
        subA_pass a.toList _ hA]
    exact congrArg (fun l => (⟨pyStripL (collapseWsAux false l)⟩ : String))
      (k3.trans k3'.symm)
  · intro ch hch hw
    have hch' : ch ∈ collapseWsAux false
        (subAAux none (subNoteAux none (subNumAux none s.toList))) := mem_pyStripL hch
    exact collapse_all_space _ false ch hch' hw
  · exact chain_pyStripL (collapse_chain
      (subAAux none (subNoteAux none (subNumAux none s.toList)))).2.1
  · intro ch hc
    exact pyStripL_head ch hc
  · intro ch hc
    exact pyStripL_last ch hc

/-- Witness for C2: concrete surrounding text, a concrete integer marker,
and a concrete messy input for the whitespace properties. -/
theorem C2_clean_spec_witness :
    clean ("x " ++ "[" ++ natStr 12 ++ "]" ++ " y") = clean ("x " ++ " y") ∧
    clean ("x " ++ "[note " ++ natStr 12 ++ "]" ++ " y") = clean ("x " ++ " y") ∧
    clean ("x " ++ "[a]" ++ " y") = clean ("x " ++ " y") ∧
    (∀ ch ∈ (clean " u\tv  w ").toList, isPyWs ch = true → ch = ' ') ∧
    List.Chain' (fun x y => ¬(isPyWs x = true ∧ isPyWs y = true))
      (clean " u\tv  w ").toList ∧
    (∀ ch, (clean " u\tv  w ").toList.head? = some ch → isPyWs ch = false) ∧
    (∀ ch, (clean " u\tv  w ").toList.getLast? = some ch → isPyWs ch = false) :=
  C2_clean_spec "x " " y" " u\tv  w " 12 (by decide)

/-- C7 counterexample: the source joins the year and the truncated text
with a hyphen before the substitution, so on basis abc and year 1999 the
slug is 1999-abc; the construction of the claim wording, concatenating
the year directly with the first 40 characters, yields 1999abc instead. -/
theorem C7_separator_counterexample :
    slugify "abc" 1999 = "1999-abc" ∧ slugClaim "abc" 1999 = "1999abc" ∧
    ("1999-abc" : String) ≠ "1999abc" :=
  ⟨rfl, rfl, by decide⟩

/-- C7 (amended): the slug is the lowercased string made of the year, a
hyphen, and the first 40 characters of the basis text, with every maximal
run of characters outside lowercase alphanumerics replaced by one hyphen
and hyphens trimmed at the ends (equivalently: the nonempty alphanumeric
runs joined by single hyphens); on collision the suffixes -1, -2, and so
on are tried in order until an identifier not in the known set is
found. -/
theorem C7_slugify_spec (text : String) (year : Nat) (known : List String) :
    slugify text year = slugSpec text year ∧
    ∃ j, ensureUnique (slugify text year) known = cand (slugify text year) j ∧
      cand (slugify text year) j ∉ known ∧
      ∀ i < j, cand (slugify text year) i ∈ known :=
  ⟨congrArg String.mk (slug_equiv _), ensureUnique_spec _ _⟩

/-- Witness for C7: a concrete basis, year and known set with one
collision. -/
theorem C7_slugify_spec_witness :
    slugify "abc" 1999 = slugSpec "abc" 1999 ∧
    ∃ j, ensureUnique (slugify "abc" 1999) ["1999-abc"] = cand (slugify "abc" 1999) j ∧
      cand (slugify "abc" 1999) j ∉ ["1999-abc"] ∧
      ∀ i < j, cand (slugify "abc" 1999) i ∈ ["1999-abc"] :=
  C7_slugify_spec "abc" 1999 ["1999-abc"]

/-- Witness for C10: the text of the two nested cells is appended to the
enclosing cell. -/
theorem C10_nested_text_in_outer_cell_witness :
    ∃ t, extract_tables (nestedToks [] ["u"] "" [["a b"], ["c"]] [] []) = [t] ∧
      t.get? (procRows []).length =
        some (["u"].map pyStrip ++ [nestedCellText "" [["a b"], ["c"]]] ++ [].map pyStrip) ∧
      (["u"].map pyStrip ++ [nestedCellText "" [["a b"], ["c"]]] ++ [].map pyStrip).get?
          (["u"].map pyStrip).length = some (nestedCellText "" [["a b"], ["c"]]) ∧
      nestedCellText "" [["a b"], ["c"]] =
        pyStrip (strJoin " "
          ((if pyStrip "" ≠ "" then [pyStrip ""] else []) ++ innerData [["a b"], ["c"]])) :=
  C10_nested_text_in_outer_cell [] [] ["u"] [] "" [["a b"], ["c"]]

end Harvest
